import Mathlib

/-!
Verification of the symbol-resolution core (gdb/symtab.c) against its
natural-language specification.  The definitions below are a shallow
embedding of the C source: each `def` mirrors one C function (named after
it) with machine pointers replaced by inductive values, out-parameters by
returned tuples, and external collaborators (demanglers, regex engine,
minimal-symbol classifier, debug-format reader) by explicit function
parameters.
-/

set_option maxRecDepth 2000
set_option linter.dupNamespace false

namespace Symtab

/-- `enum language` from the source (the members used in symtab.c). -/
inductive Language where
  | unknown
  | auto
  | objc
  | cplus
  | java
  | ada
  | c
  deriving DecidableEq, Repr

/-- `domain_enum`: the namespace partition of a symbol. -/
inductive Domain where
  | varDomain
  | structDomain
  | labelDomain
  deriving DecidableEq, Repr

/-- `enum address_class` (`LOC_*`), the storage class of a symbol
(the members symtab.c's logic branches on). -/
inductive SymClass where
  | locStatic
  | locBlock
  | locTypedef
  | locConst
  | locLabel
  | locArg
  deriving DecidableEq, Repr

/-- Minimal-symbol type (`enum minimal_symbol_type`), the members
find_pc_sect_psymtab / find_pc_sect_symtab branch on. -/
inductive MinsymType where
  | mstText
  | mstFileText
  | mstData
  | mstBss
  | mstAbs
  | mstFileData
  | mstFileBss
  | mstSolibTrampoline
  | mstUnknown
  deriving DecidableEq, Repr

/-- A debug symbol (`struct symbol`): natural/search name, linkage name,
language, domain, storage class, the `SYMBOL_IS_ARGUMENT` flag (a macro
over the storage class in the C headers, carried here as a field), the
address value (`SYMBOL_VALUE_ADDRESS`) and an optional section id. -/
structure Symbol where
  name : String
  linkage : String
  lang : Language
  domain : Domain
  cls : SymClass
  isArg : Bool
  value : Nat
  section_ : Option Nat := none
  aggregate : Bool := false
  deriving DecidableEq, Repr

/-- `symbol_matches_domain` (symtab.c:1650-1668): C++/Java/Ada fold a
struct declaration into both the type and the variable domain. -/
def symbol_matches_domain (symbolLanguage : Language) (symbolDomain : Domain)
    (domain : Domain) : Bool :=
  if (symbolLanguage = Language.cplus || symbolLanguage = Language.java
      || symbolLanguage = Language.ada)
     && (domain = Domain.varDomain || domain = Domain.structDomain)
     && symbolDomain = Domain.structDomain
  then true
  else symbolDomain = domain

/-! ## 4.4 Name Identity Cache: symbol_find_demangled_name / symbol_set_names

The demangling algorithms themselves are external collaborators
(`objc_demangle`, `cplus_demangle`); they enter the model as function
parameters.  `cplus_demangle` takes its option flags, of which the model
keeps the one symtab.c varies: `DMGL_JAVA`. -/

/-- The external demanglers passed into the name-identity model:
`objc` is `objc_demangle (mangled, 0)`, `cplus j` is
`cplus_demangle (mangled, DMGL_PARAMS | DMGL_ANSI | (j ? DMGL_JAVA : 0))`. -/
structure Demanglers where
  objc : String → Option String
  cplus : Bool → String → Option String

/-- `struct general_symbol_info` as used by symbol_set_names: the language
tag, the stored `name`, and the cached demangled name. -/
structure GSymbol where
  lang : Language
  name : String := ""
  demangled : Option String := none
  deriving DecidableEq, Repr

/-- `symbol_find_demangled_name` (symtab.c:453-496): returns the updated
symbol (its language may be fixed by a successful demangling) and the
demangled name, if any.  An unknown language is first turned into
`language_auto`; Objective-C demangling is tried for `objc` and `auto`,
C++ demangling for `cplus` and `auto`, and the Java variant only when the
language already is `java`. -/
def symbol_find_demangled_name (d : Demanglers) (g : GSymbol)
    (mangled : String) : GSymbol × Option String :=
  let g := if g.lang = Language.unknown then { g with lang := Language.auto } else g
  let try1 : Option (GSymbol × String) :=
    if g.lang = Language.objc || g.lang = Language.auto then
      (d.objc mangled).map fun dem => ({ g with lang := Language.objc }, dem)
    else none
  match try1 with
  | some (g', dem) => (g', some dem)
  | none =>
    let try2 : Option (GSymbol × String) :=
      if g.lang = Language.cplus || g.lang = Language.auto then
        (d.cplus false mangled).map fun dem => ({ g with lang := Language.cplus }, dem)
      else none
    match try2 with
    | some (g', dem) => (g', some dem)
    | none =>
      let try3 : Option (GSymbol × String) :=
        if g.lang = Language.java then
          (d.cplus true mangled).map fun dem => ({ g with lang := Language.java }, dem)
        else none
      match try3 with
      | some (g', dem) => (g', some dem)
      | none => (g, none)

/-- The per-module demangled-names hash: each slot, keyed by the lookup
name (the linkage name, Java-prefixed for Java symbols), stores the pair
(stored name, optional demangled name) that symbol_set_names placed
there. -/
abbrev NamesHash := List (String × (String × Option String))

/-- The `"##JAVA$$"` prefix symbol_set_names puts on Java lookup keys. -/
def javaMarker : String := "##JAVA$$"

/-- `symbol_set_names` (symtab.c:523-623): sets the stored and demangled
names of `g` from `linkage_name`, consulting and filling the per-module
hash.  Ada symbols store only the raw name; Java symbols are keyed with a
distinctive prefix.  Returns the updated symbol and the updated hash. -/
def symbol_set_names (d : Demanglers) (g : GSymbol) (linkageName : String)
    (hash : NamesHash) : GSymbol × NamesHash :=
  if g.lang = Language.ada then
    ({ g with name := linkageName, demangled := none }, hash)
  else
    let lookupName :=
      if g.lang = Language.java then javaMarker ++ linkageName else linkageName
    match hash.lookup lookupName with
    | some (stored, dem) =>
      -- hash hit: reuse the slot's strings; the language is not touched.
      ({ g with name := stored, demangled := dem }, hash)
    | none =>
      let (g', dem) := symbol_find_demangled_name d g linkageName
      -- `gsymbol->name = *slot + lookup_len - len` points at the copy of
      -- the linkage name inside the slot (past any Java prefix).
      (({ g' with name := linkageName, demangled := dem }),
       (lookupName, (linkageName, dem)) :: hash)

/-! ## Blocks and block-level lookup -/

/-- `struct block`: a lexical scope with its code range, its symbol
dictionary, whether it is a function's block (`BLOCK_FUNCTION` non-null),
and its enclosing block (`BLOCK_SUPERBLOCK`; `none` for the global
block).  The enclosing block is held inline, mirroring the C parent
pointer chain. -/
inductive Blk where
  | mk (startAddr : Nat) (endAddr : Nat) (dict : List Symbol)
       (isFunction : Bool) (superblock : Option Blk)

/-- Structural equality on blocks, standing in for the C pointer
comparison `block != static_block`. -/
def Blk.beq : Blk → Blk → Bool
  | .mk a1 e1 d1 f1 s1, .mk a2 e2 d2 f2 s2 =>
    a1 == a2 && e1 == e2 && d1 == d2 && f1 == f2 &&
    (match s1, s2 with
     | none, none => true
     | some p1, some p2 => Blk.beq p1 p2
     | _, _ => false)

theorem Blk.beq_refl : ∀ b : Blk, Blk.beq b b = true
  | .mk _ _ _ _ none => by simp [Blk.beq]
  | .mk _ _ _ _ (some p) => by simp [Blk.beq]; exact Blk.beq_refl p

theorem Blk.eq_of_beq : ∀ {a b : Blk}, Blk.beq a b = true → a = b
  | .mk a1 e1 d1 f1 none, .mk a2 e2 d2 f2 none, h => by
    simp [Blk.beq] at h
    obtain ⟨⟨⟨h1, h2⟩, h3⟩, h4⟩ := h
    simp [h1, h2, h3, h4]
  | .mk a1 e1 d1 f1 (some p1), .mk a2 e2 d2 f2 (some p2), h => by
    simp [Blk.beq] at h
    obtain ⟨⟨⟨⟨h1, h2⟩, h3⟩, h4⟩, h5⟩ := h
    have := Blk.eq_of_beq h5
    simp [h1, h2, h3, h4, this]
  | .mk _ _ _ _ none, .mk _ _ _ _ (some _), h => by simp [Blk.beq] at h
  | .mk _ _ _ _ (some _), .mk _ _ _ _ none, h => by simp [Blk.beq] at h

instance : DecidableEq Blk := fun a b =>
  if h : Blk.beq a b = true then isTrue (Blk.eq_of_beq h)
  else isFalse fun hh => h (hh ▸ Blk.beq_refl a)

def Blk.startAddr : Blk → Nat | .mk a _ _ _ _ => a
def Blk.endAddr : Blk → Nat | .mk _ e _ _ _ => e
def Blk.dict : Blk → List Symbol | .mk _ _ d _ _ => d
def Blk.isFunction : Blk → Bool | .mk _ _ _ f _ => f
def Blk.superblock : Blk → Option Blk | .mk _ _ _ _ s => s

/-- Modelled from the spec: the per-block dictionary iteration
`dict_iter_name_first`/`dict_iter_name_next` lives in dictionary.c, which
is not under src/.  Per the spec's data model a block owns an unordered
name→symbol dictionary; iteration by name visits every symbol whose
search name matches, here in the dictionary's list order. -/
def dict_iter_name (dict : List Symbol) (name : String) : List Symbol :=
  dict.filter fun s => s.name = name

/-- The per-symbol acceptance test both branches of lookup_block_symbol
apply to each name match: the domain check via symbol_matches_domain and
the optional linkage-name check. -/
def blockSymMatch (s : Symbol) (linkageName : Option String)
    (domain : Domain) : Bool :=
  symbol_matches_domain s.lang s.domain domain
  && (match linkageName with
      | some ln => s.linkage = ln
      | none => true)

/-- The function-block loop of lookup_block_symbol (symtab.c:1942-1969):
every match is remembered in `sym_found`, and the loop breaks at the
first non-parameter match, so parameters are used only as a last
resort. -/
def lookup_block_symbol_fn (linkageName : Option String) (domain : Domain) :
    List Symbol → Option Symbol → Option Symbol
  | [], symFound => symFound
  | s :: rest, symFound =>
    if blockSymMatch s linkageName domain then
      if !s.isArg then some s
      else lookup_block_symbol_fn linkageName domain rest (some s)
    else lookup_block_symbol_fn linkageName domain rest symFound

/-- `lookup_block_symbol` (symtab.c:1920-1970): search BLOCK for NAME in
DOMAIN.  In a non-function block the first acceptable name match is
returned; in a function block a non-parameter match is preferred over a
parameter. -/
def lookup_block_symbol (block : Blk) (name : String)
    (linkageName : Option String) (domain : Domain) : Option Symbol :=
  if !block.isFunction then
    (dict_iter_name block.dict name).find? fun s => blockSymMatch s linkageName domain
  else
    lookup_block_symbol_fn linkageName domain (dict_iter_name block.dict name) none

/-- Modelled from the spec: `block_static_block` lives in block.c, which
is not under src/.  Per the spec's Block Tree, blocks nest from the
global block (no parent) through the static block down to function and
lexical blocks; this returns the static-block ancestor of a block, or
none for the global block itself. -/
def block_static_block : Blk → Option Blk
  | .mk _ _ _ _ none => none
  | .mk a e d f (some p) =>
    match p.superblock with
    | none => some (Blk.mk a e d f (some p))
    | some _ => block_static_block p

/-- Modelled from the spec: `block_global_block` (block.c, not under
src/) walks to the root of the Block Tree, the global block. -/
def block_global_block : Blk → Blk
  | .mk a e d f none => Blk.mk a e d f none
  | .mk _ _ _ _ (some p) => block_global_block p

/-- The chain of lexical scopes from a block outward to the global
block, i.e. the blocks the C walks through `BLOCK_SUPERBLOCK`. -/
def blockChain : Option Blk → List Blk
  | none => []
  | some (.mk a e d f sup) => Blk.mk a e d f sup :: blockChain sup

/-- `lookup_symbol_aux_block` (symtab.c:1405-1420): a block lookup plus
the section fixup; `fixup_symbol_section` only fills the lazily-cached
section back-reference from the minimal symbols (external data), so it is
the identity on the fields this model carries. -/
def lookup_symbol_aux_block (name : String) (linkageName : Option String)
    (block : Blk) (domain : Domain) : Option Symbol :=
  lookup_block_symbol block name linkageName domain

/-- The walk of lookup_symbol_aux_local (symtab.c:1369-1375) along the
chain of enclosing blocks: search each block from the context outward,
stopping at the static block.  A chain that runs out before reaching the
static block would be ill-formed (the C would dereference a null
superblock); the walk then stops empty-handed. -/
def lookup_local_walk (name : String) (linkageName : Option String)
    (domain : Domain) (staticBlock : Blk) : List Blk → Option Symbol
  | [] => none
  | b :: rest =>
    if b = staticBlock then none
    else
      match lookup_symbol_aux_block name linkageName b domain with
      | some s => some s
      | none => lookup_local_walk name linkageName domain staticBlock rest

/-- `lookup_symbol_aux_local` (symtab.c:1356-1380): check whether the
symbol is defined in BLOCK or its superiors, never searching the static
or global block. -/
def lookup_symbol_aux_local (name : String) (linkageName : Option String)
    (block : Option Blk) (domain : Domain) : Option Symbol :=
  match block with
  | none => none
  | some b =>
    match block_static_block b with
    | none => none
    | some staticBlock =>
      lookup_local_walk name linkageName domain staticBlock (blockChain (some b))

/-! ## The two-tier catalog: full symtabs amd partial symtabs -/

/-- A minimal (linker) symbol, as consumed from the external
minimal-symbol table. -/
structure Minsym where
  name : String
  linkage : String
  mtype : MinsymType
  value : Nat
  deriving DecidableEq, Repr

/-- `struct linetable_entry`: one (source line, start address) pair.  A
line number of 0 marks "end of function, no source line here". -/
structure LineEntry where
  line : Nat
  pc : Nat
  deriving DecidableEq, Repr

/-- `struct blockvector`, reduced to the two distinguished blocks the
code indexes by `GLOBAL_BLOCK`/`STATIC_BLOCK`; the function and lexical
blocks hang below them through the `Blk.superblock` chain. -/
structure Blockvector where
  global : Blk
  static_ : Blk
  deriving DecidableEq

/-- `GLOBAL_BLOCK` / `STATIC_BLOCK`, the only two block indexes the
lookups pass around. -/
inductive BlockIndex where
  | globalBlock
  | staticBlock
  deriving DecidableEq, Repr

def BlockIndex.other : BlockIndex → BlockIndex
  | .globalBlock => .staticBlock
  | .staticBlock => .globalBlock

def Blockvector.at_ (bv : Blockvector) : BlockIndex → Blk
  | .globalBlock => bv.global
  | .staticBlock => bv.static_

/-- `struct symtab` (a Full Table): source filename, its blockvector
(with an id standing in for the C pointer identity, since several
symtabs may share one blockvector), its line table (`none` models a null
`LINETABLE`), and the primary flag. -/
structure Symtab where
  filename : String
  bvId : Nat
  bv : Blockvector
  linetable : Option (List LineEntry)
  primary : Bool
  deriving DecidableEq

/-- `struct partial_symtab` (a Compact Index): source filename, the
low/high text range, the global and static partial-symbol partitions,
the `readin` flag, the index of its primary full table in the session's
symtab list once expanded, and the full tables the external reader
produces for it on expansion. -/
structure Psymtab where
  filename : String
  textlow : Nat
  texthigh : Nat
  globals : List Symbol
  statics : List Symbol
  readin : Bool
  symtabIdx : Option Nat
  expansion : List Symtab
  deriving DecidableEq

/-- The catalog of one loaded module (one objfile): the `OBJF_REORDERED`
flag, the optional addrmap (pc → psymtab index), the Compact Indexes,
the Full Tables read in so far, and a counter of reader invocations
(used to state "no re-parse" properties).  The `ALL_*` iteration macros
of the C range over these lists. -/
structure Session where
  reordered : Bool
  addrmap : Option (Nat → Option Nat)
  psymtabs : List Psymtab
  symtabs : List Symtab
  msymbols : List Minsym
  reads : Nat

/-- Modelled from the spec: `PSYMTAB_TO_SYMTAB`/`psymtab_to_symtab`
(symtab.h / symfile.c) are not under src/.  Per the spec (§4.1),
expansion "must be safe to call when the index is already expanded
(returns the existing Full Table, no re-parse)"; an unexpanded index is
handed to the external reader, whose tables are appended to the module's
table list, and the index is marked expanded.  Returns the updated
session and the index of the unit's primary full table (none when the
unit is unknown or a previous expansion produced no table). -/
def psymtab_to_symtab (sess : Session) (i : Nat) : Session × Option Nat :=
  match sess.psymtabs[i]? with
  | none => (sess, none)
  | some ps =>
    match ps.symtabIdx with
    | some k => (sess, some k)
    | none =>
      if ps.readin then (sess, none)
      else
        let k := sess.symtabs.length
        ({ sess with
            symtabs := sess.symtabs ++ ps.expansion,
            psymtabs := sess.psymtabs.set i
              { ps with readin := true, symtabIdx := some k },
            reads := sess.reads + 1 },
         some k)

/-- `lookup_partial_symbol` (symtab.c:1675-1762): look in the global or
static partition of PST for a symbol matching NAME (or LINKAGE_NAME) in
DOMAIN.  The C binary-searches the name-sorted global partition and
falls back to a linear scan otherwise; over a sorted partition both find
the first acceptable match, so the model searches linearly. -/
def lookup_partial_symbol (ps : Psymtab) (name : String)
    (linkageName : Option String) (global : Bool) (domain : Domain) :
    Option Symbol :=
  let lst := if global then ps.globals else ps.statics
  lst.find? fun p =>
    symbol_matches_domain p.lang p.domain domain
    && (match linkageName with
        | some ln => p.linkage = ln
        | none => p.name = name)

/-- `lookup_symbol_aux_symtabs` (symtab.c:1477-1501): scan the chosen
block of every primary full table for the symbol. -/
def lookup_symbol_aux_symtabs (sess : Session) (blockIndex : BlockIndex)
    (name : String) (linkageName : Option String) (domain : Domain) :
    Option Symbol :=
  let rec go : List Symtab → Option Symbol
    | [] => none
    | s :: rest =>
      if s.primary then
        match lookup_block_symbol (s.bv.at_ blockIndex) name linkageName domain with
        | some sym => some sym
        | none => go rest
      else go rest
  go sess.symtabs

/-- The diagnosable internal error of symtab.c:1549 ("symbol found in
psymtab but not in symtab"), and the null-dereference the C would make
if an expansion yielded no table at all. -/
inductive LookupError where
  | internalInconsistency (blockIndex : BlockIndex) (name : String)
  | noSymtab
  | notAggregate (thisName : String)
  deriving DecidableEq, Repr

/-- `lookup_symbol_aux_psymtabs` (symtab.c:1508-1558): scan every
unexpanded Compact Index; on an index hit, expand the unit and look the
symbol up in the claimed block of the resulting full table, falling back
once to the opposite block, and raising the diagnosable internal error
if the symbol is in neither. -/
def lookup_symbol_aux_psymtabs (sess : Session) (blockIndex : BlockIndex)
    (name : String) (linkageName : Option String) (domain : Domain) :
    Except LookupError (Session × Option Symbol) :=
  -- The loop returns at the first index hit, before which no state has
  -- been touched, so it can scan the entry session's list directly.
  let rec go : List (Nat × Psymtab) → Except LookupError (Session × Option Symbol)
    | [] => .ok (sess, none)
    | (i, ps) :: rest =>
      if !ps.readin
         && (lookup_partial_symbol ps name linkageName
               (blockIndex = BlockIndex.globalBlock) domain).isSome then
        let (sess', k?) := psymtab_to_symtab sess i
        match k? with
        | none => .error .noSymtab
        | some k =>
          match sess'.symtabs[k]? with
          | none => .error .noSymtab
          | some s =>
            match lookup_block_symbol (s.bv.at_ blockIndex) name linkageName domain with
            | some sym => .ok (sess', some sym)
            | none =>
              match lookup_block_symbol (s.bv.at_ blockIndex.other) name
                      linkageName domain with
              | some sym => .ok (sess', some sym)
              | none => .error (.internalInconsistency blockIndex name)
      else go rest
  go sess.psymtabs.enum

/-- `lookup_symbol_static` (symtab.c:1610-1622): look in the static
block enclosing BLOCK, if there is one. -/
def lookup_symbol_static (name : String) (linkageName : Option String)
    (block : Option Blk) (domain : Domain) : Option Symbol :=
  match block with
  | none => none
  | some b =>
    match block_static_block b with
    | none => none
    | some staticBlock => lookup_symbol_aux_block name linkageName staticBlock domain

/-- `lookup_objfile_from_block` (symtab.c:1384-1400): whether BLOCK's
global block is the global block of one of the module's symtabs (the C
returns that objfile; the model has a single module). -/
def lookup_objfile_from_block (sess : Session) (block : Option Blk) : Bool :=
  match block with
  | none => false
  | some b => sess.symtabs.any fun s => s.bv.global = block_global_block b

/-- `lookup_symbol_global` (symtab.c:1627-1648): the per-module
cross-module hook (`solib_global_lookup`, an external collaborator
passed in as `solibLookup`), then the global blocks of the full tables,
then the global partitions of the Compact Indexes. -/
def lookup_symbol_global (sess : Session)
    (solibLookup : String → Option String → Domain → Option Symbol)
    (name : String) (linkageName : Option String) (block : Option Blk)
    (domain : Domain) : Except LookupError (Session × Option Symbol) :=
  let sym := if lookup_objfile_from_block sess block then
               solibLookup name linkageName domain
             else none
  match sym with
  | some s => .ok (sess, some s)
  | none =>
    match lookup_symbol_aux_symtabs sess .globalBlock name linkageName domain with
    | some s => .ok (sess, some s)
    | none => lookup_symbol_aux_psymtabs sess .globalBlock name linkageName domain

/-- `basic_lookup_symbol_nonlocal` (symtab.c:1564-1605): the default
non-local hook, implementing the C lookup rules — file statics first,
then globals. -/
def basic_lookup_symbol_nonlocal (sess : Session)
    (solibLookup : String → Option String → Domain → Option Symbol)
    (name : String) (linkageName : Option String) (block : Option Blk)
    (domain : Domain) : Except LookupError (Session × Option Symbol) :=
  match lookup_symbol_static name linkageName block domain with
  | some s => .ok (sess, some s)
  | none => lookup_symbol_global sess solibLookup name linkageName block domain

/-! ## lookup_symbol_aux: the scoped name resolver

The per-language hooks (`language_def (language)->la_name_of_this` and
`la_lookup_symbol_nonlocal`) are external collaborators; they enter as
the `nameOfThis` and `nonlocal` parameters.  For C the non-local hook is
`basic_lookup_symbol_nonlocal`, defined above from this same file.
`check_field` (valops.c) is external and enters as a predicate; a
symbol's `aggregate` field models "`TYPE_CODE` of its `CHECK_TYPEDEF`'d,
pointer/reference-dereferenced type is struct or union". -/

/-- The enclosing-function-block walk of lookup_symbol_aux
(symtab.c:1299-1300): `'this' is only defined in the function's block`. -/
def findFunctionBlock : Option Blk → Option Blk
  | none => none
  | some (.mk a e d f sb) =>
    if f then some (.mk a e d f sb) else findFunctionBlock sb

/-- The receiver-variable resolution of lookup_symbol_aux
(symtab.c:1296-1304): find the enclosing function block and look up the
language's "this" name in it (skipping an empty dictionary). -/
def lookup_this_symbol (thisName : String) (block : Option Blk) :
    Option Symbol :=
  match findFunctionBlock block with
  | some fb =>
    if fb.dict ≠ [] then lookup_block_symbol fb thisName none .varDomain
    else none
  | none => none

/-- The tail of lookup_symbol_aux (symtab.c:1329-1350): the non-local
hook, then all file-static blocks of the full tables, then the static
partitions of the Compact Indexes. -/
def lookup_symbol_aux_rest (sess : Session)
    (nonlocal : Session → String → Option String → Option Blk → Domain →
      Except LookupError (Session × Option Symbol))
    (name : String) (linkageName : Option String) (block : Option Blk)
    (domain : Domain) : Except LookupError (Session × Option Symbol × Bool) :=
  match nonlocal sess name linkageName block domain with
  | .error e => .error e
  | .ok (sess', some s) => .ok (sess', some s, false)
  | .ok (sess', none) =>
    match lookup_symbol_aux_symtabs sess' .staticBlock name linkageName domain with
    | some s => .ok (sess', some s, false)
    | none =>
      match lookup_symbol_aux_psymtabs sess' .staticBlock name linkageName domain with
      | .error e => .error e
      | .ok (sess'', sym?) => .ok (sess'', sym?, false)

/-- `lookup_symbol_aux` (symtab.c:1265-1351).  The returned Bool is the
`*is_a_field_of_this` out-parameter, initialized to 0 on entry and set
to 1 only when NAME is a member field of the receiver's aggregate type,
in which case no symbol is returned; `wantFieldOfThis` models passing a
non-null `is_a_field_of_this` pointer. -/
def lookup_symbol_aux (sess : Session)
    (nonlocal : Session → String → Option String → Option Blk → Domain →
      Except LookupError (Session × Option Symbol))
    (nameOfThis : Option String) (checkField : Symbol → String → Bool)
    (name : String) (linkageName : Option String) (block : Option Blk)
    (domain : Domain) (wantFieldOfThis : Bool) :
    Except LookupError (Session × Option Symbol × Bool) :=
  -- `*is_a_field_of_this = 0` happens first; every path below that does
  -- not set it to 1 returns it as false.
  match lookup_symbol_aux_local name linkageName block domain with
  | some s => .ok (sess, some s, false)
  | none =>
    match nameOfThis with
    | some thisName =>
      if wantFieldOfThis && block.isSome then
        match lookup_this_symbol thisName block with
        | some ts =>
          if !ts.aggregate then .error (.notAggregate thisName)
          else if checkField ts name then .ok (sess, none, true)
          else lookup_symbol_aux_rest sess nonlocal name linkageName block domain
        | none => lookup_symbol_aux_rest sess nonlocal name linkageName block domain
      else lookup_symbol_aux_rest sess nonlocal name linkageName block domain
    | none => lookup_symbol_aux_rest sess nonlocal name linkageName block domain

/-! ## Address-keyed Compact Index lookup -/

/-- Whether a minimal symbol at the queried address classifies it as a
non-text (data) address; find_pc_sect_psymtab (symtab.c:858-865) and
find_pc_sect_symtab (symtab.c:1992-1999) return failure for those. -/
def msymIsData (msymbol : Option Minsym) : Bool :=
  match msymbol with
  | some m =>
    m.mtype = .mstData || m.mtype = .mstBss || m.mtype = .mstAbs
    || m.mtype = .mstFileData || m.mtype = .mstFileBss
  | none => false

/-- One step of the partial-symbol scan of find_pc_sect_psymbol
(symtab.c:963-1009): accept a VAR_DOMAIN LOC_BLOCK symbol at or below PC
that improves on the best address so far (with the special acceptance of
address 0 in intentionally zero-based units), subject to the section
match when a section is given (`matching_obj_sections`, external,
modelled as equality of section ids). -/
def fps_step (pc : Nat) (sec : Option Nat) (textlow : Nat)
    (st : Option Symbol × Nat) (p : Symbol) : Option Symbol × Nat :=
  let (_, bestPc) := st
  if p.domain = Domain.varDomain && p.cls = SymClass.locBlock
     && p.value ≤ pc
     && (bestPc < p.value || (textlow == 0 && bestPc == 0 && p.value == 0)) then
    match sec with
    | some _ => if p.section_ == sec then (some p, p.value) else st
    | none => (some p, p.value)
  else st

/-- `find_pc_sect_psymbol` (symtab.c:945-1012) for a given psymtab (the
C's null-psymtab entry path re-runs find_pc_sect_psymtab; every caller
in this file passes the psymtab): the global then static partitions are
scanned for the best matching function symbol. -/
def find_pc_sect_psymbol (pst : Psymtab) (pc : Nat) (sec : Option Nat) :
    Option Symbol :=
  let bestPc0 := if pst.textlow ≠ 0 then pst.textlow - 1 else 0
  let st1 := pst.globals.foldl (fps_step pc sec pst.textlow) (none, bestPc0)
  let st2 := pst.statics.foldl (fps_step pc sec pst.textlow) st1
  st2.1

/-- Whether a Compact Index's [textlow, texthigh) range contains the
address (the containment test of symtab.c:801 and 919). -/
def pst_contains (pst : Psymtab) (pc : Nat) : Prop :=
  pst.textlow ≤ pc ∧ pc < pst.texthigh

instance (pst : Psymtab) (pc : Nat) : Decidable (pst_contains pst pc) :=
  instDecidableAnd

/-- The candidate address of a unit in the closer-match scan
(symtab.c:816-823): the address of its best contained symbol, or its
textlow when it has none. -/
def psymtabCandidate (pst : Psymtab) (pc : Nat) (sec : Option Nat) : Nat :=
  match find_pc_sect_psymbol pst pc sec with
  | some p => p.value
  | none => pst.textlow

/-- The scan loop of find_pc_sect_psymtab_closer (symtab.c:799-841) over
the psymtab chain starting at the initially found unit: an exact hit on
the minimal symbol's address returns at once, otherwise the unit whose
candidate address (its best contained symbol, or its textlow) is highest
— closest to but not exceeding PC — is remembered. -/
def closer_loop (pc : Nat) (sec : Option Nat) (msymValue : Nat) :
    List (Nat × Psymtab) → Nat → Nat → Option Nat
  | [], bestPst, _ => some bestPst
  | (j, tpst) :: rest, bestPst, bestAddr =>
    if tpst.textlow ≤ pc ∧ pc < tpst.texthigh then
      match find_pc_sect_psymbol tpst pc sec with
      | some q =>
        if q.value = msymValue then some j
        else if q.value > bestAddr then closer_loop pc sec msymValue rest j q.value
        else closer_loop pc sec msymValue rest bestPst bestAddr
      | none =>
        if tpst.textlow > bestAddr then
          closer_loop pc sec msymValue rest j tpst.textlow
        else closer_loop pc sec msymValue rest bestPst bestAddr
    else closer_loop pc sec msymValue rest bestPst bestAddr

/-- `find_pc_sect_psymtab_closer` (symtab.c:771-843), on the unit at
index `pstIdx` whose range contains PC: without the reordered-functions
flag and a section there is nothing to disambiguate (first unit wins);
without a minimal symbol likewise.  Otherwise all units from `pstIdx`
onward are scanned for the closer match. -/
def find_pc_sect_psymtab_closer (sess : Session) (pc : Nat) (sec : Option Nat)
    (pstIdx : Nat) (msymbol : Option Minsym) : Option Nat :=
  match sess.psymtabs[pstIdx]? with
  | none => none
  | some pst =>
    if !sess.reordered && sec = none then some pstIdx
    else
      match msymbol with
      | none => some pstIdx
      | some msym =>
        closer_loop pc sec msym.value (sess.psymtabs.enum.drop pstIdx)
          pstIdx pst.textlow

/-- The linear fallback scan of find_pc_sect_psymtab (symtab.c:910-928):
the first Compact Index whose [textlow, texthigh) range contains PC is
refined through find_pc_sect_psymtab_closer. -/
def fps_scan (sess : Session) (pc : Nat) (sec : Option Nat)
    (msymbol : Option Minsym) : List (Nat × Psymtab) → Option Nat
  | [] => none
  | (i, pst) :: rest =>
    if pst.textlow ≤ pc ∧ pc < pst.texthigh then
      match find_pc_sect_psymtab_closer sess pc sec i msymbol with
      | some r => some r
      | none => fps_scan sess pc sec msymbol rest
    else fps_scan sess pc sec msymbol rest

/-- `find_pc_sect_psymtab` (symtab.c:849-931): nothing for known data
addresses; then the addrmap fast path (its overlay-debugging fallback is
dead here: overlay support is off in this model), then the
overlap-tolerant linear scan. -/
def find_pc_sect_psymtab (sess : Session) (msymAt : Nat → Option Minsym)
    (pc : Nat) (sec : Option Nat) : Option Nat :=
  let msymbol := msymAt pc
  if msymIsData msymbol then none
  else
    match sess.addrmap with
    | some am =>
      match am pc with
      | some pstIdx => some pstIdx
      | none => fps_scan sess pc sec msymbol sess.psymtabs.enum
    | none => fps_scan sess pc sec msymbol sess.psymtabs.enum

/-! ## Address → symtab and address → line -/

/-- The primary-symtab scan of find_pc_sect_symtab (symtab.c:2016-2073)
with its final psymtab fallback: among primary tables whose global block
contains PC, keep the one with the smallest range; a reordered module
with Compact Indexes resolves through find_pc_sect_psymtab at once; when
a section is given the table must contain at least one symbol of that
section in its global block. -/
def fpss_go (sess : Session) (msymAt : Nat → Option Minsym) (pc : Nat)
    (sec : Option Nat) : List (Nat × Symtab) → Nat → Option Nat →
    Session × Option Nat
  | [], _, bestS =>
    (match bestS with
     | some k => (sess, some k)
     | none =>
       match find_pc_sect_psymtab sess msymAt pc sec with
       | some psIdx => psymtab_to_symtab sess psIdx
       | none => (sess, none))
  | (k, s) :: rest, distance, bestS =>
    if s.primary then
      let b := s.bv.global
      if b.startAddr ≤ pc ∧ pc < b.endAddr
         ∧ (distance = 0 ∨ b.endAddr - b.startAddr < distance) then
        if sess.reordered ∧ sess.psymtabs ≠ [] then
          match find_pc_sect_psymtab sess msymAt pc sec with
          | some psIdx => psymtab_to_symtab sess psIdx
          | none =>
            match sec with
            | some _ =>
              if b.dict.any (fun sym => sym.section_ == sec) then
                fpss_go sess msymAt pc sec rest (b.endAddr - b.startAddr) (some k)
              else fpss_go sess msymAt pc sec rest distance bestS
            | none => fpss_go sess msymAt pc sec rest (b.endAddr - b.startAddr) (some k)
        else
          match sec with
          | some _ =>
            if b.dict.any (fun sym => sym.section_ == sec) then
              fpss_go sess msymAt pc sec rest (b.endAddr - b.startAddr) (some k)
            else fpss_go sess msymAt pc sec rest distance bestS
          | none => fpss_go sess msymAt pc sec rest (b.endAddr - b.startAddr) (some k)
      else fpss_go sess msymAt pc sec rest distance bestS
    else fpss_go sess msymAt pc sec rest distance bestS

/-- `find_pc_sect_symtab` (symtab.c:1975-2074): reject known data
addresses, then scan for the smallest enclosing primary table, falling
back to Compact Index lookup plus expansion. -/
def find_pc_sect_symtab (sess : Session) (msymAt : Nat → Option Minsym)
    (pc : Nat) (sec : Option Nat) : Session × Option Nat :=
  if msymIsData (msymAt pc) then (sess, none)
  else fpss_go sess msymAt pc sec sess.symtabs.enum 0 none

/-- `struct symtab_and_line`: the result of address → line mapping.
`init_sal` zeroes every field; the model's `none` stands for the zeroed
symtab pointer. -/
structure SymtabAndLine where
  symtab : Option Nat
  line : Nat
  pc : Nat
  endAddr : Nat
  deriving DecidableEq, Repr

/-- The best/alt bookkeeping state of find_pc_sect_line: the best line
entry seen so far with the table it came from, the best range end, and
the alternate (lowest first-entry address above PC across the unit's
tables). -/
structure FpslState where
  best : Option LineEntry
  bestSymtab : Option Nat
  bestEnd : Nat
  alt : Option LineEntry
  deriving DecidableEq, Repr

/-- The index of the first line-table entry whose address exceeds PC
(the inner loop break of symtab.c:2267-2275); the list length if none
does. -/
def firstAbove (l : List LineEntry) (pc : Nat) : Nat :=
  l.findIdx fun it => decide (pc < it.pc)

/-- The `prev` entry of the scan (symtab.c:2277-2280): the last entry
examined before the break, i.e. the last entry of the scanned prefix —
the latest entry starting at or before PC in scan order. -/
def linePrev (l : List LineEntry) (pc : Nat) : Option LineEntry :=
  (l.take (firstAbove l pc)).getLast?

/-- Whether any of the unit's tables attributes a source line to PC: its
scan finds a latest entry at or below PC carrying a nonzero line
number. -/
def hasLineAttribution (tables : List Symtab) (pc : Nat) : Prop :=
  ∃ s ∈ tables, ∃ l, s.linetable = some l
    ∧ ∃ pv, linePrev l pc = some pv ∧ pv.line ≠ 0

/-- The invariant of find_pc_sect_line's best/alt bookkeeping: the best
entry starts at or below PC with a real line number, the best end and the
alternate lie strictly above PC, and best and its table are recorded
together. -/
def FpslInv (pc : Nat) (st : FpslState) : Prop :=
  (∀ b, st.best = some b → b.pc ≤ pc ∧ b.line ≠ 0)
  ∧ (st.bestEnd = 0 ∨ pc < st.bestEnd)
  ∧ (∀ a, st.alt = some a → pc < a.pc)
  ∧ (st.best = none ↔ st.bestSymtab = none)

/-- One symtab's contribution to find_pc_sect_line (symtab.c:2240-2303):
update the alternate from the table's first entry, find the last entry
starting at or below PC (`prev`), take it as the new best when it has a
real line number and starts later than the current best, and tighten the
best range end from the entry after the break point. -/
def fpsl_step (pc : Nat) (st : FpslState) (arg : Nat × Symtab) : FpslState :=
  let (idx, s) := arg
  match s.linetable with
  | none => st
  | some l =>
    if l.length = 0 then st
    else
      let alt' : Option LineEntry :=
        match l.head? with
        | some item0 =>
          if pc < item0.pc && (match st.alt with
                               | none => true
                               | some a => decide (item0.pc < a.pc)) then
            some item0
          else st.alt
        | none => st.alt
      let k := firstAbove l pc
      let prev := linePrev l pc
      let (best', bestSym', bestEnd') :=
        match prev with
        | some pv =>
          if pv.line != 0 && (match st.best with
                              | none => true
                              | some b => decide (b.pc < pv.pc)) then
            (some pv, some idx, if st.bestEnd ≤ pv.pc then 0 else st.bestEnd)
          else (st.best, st.bestSymtab, st.bestEnd)
        | none => (st.best, st.bestSymtab, st.bestEnd)
      let bestEnd'' :=
        match best', l[k]? with
        | some b, some item =>
          if b.pc < item.pc ∧ (bestEnd' = 0 ∨ item.pc < bestEnd') then item.pc
          else bestEnd'
        | _, _ => bestEnd'
      { best := best', bestSymtab := bestSym', bestEnd := bestEnd'', alt := alt' }

/-- The body of find_pc_sect_line after the minimal-symbol preamble
(symtab.c:2224-2333): locate the owning table, scan every table sharing
its blockvector, and assemble the line/range answer. -/
def fpsl_core (sess : Session) (msymAt : Nat → Option Minsym) (pc : Nat)
    (sec : Option Nat) (notcurrent : Bool) : Session × SymtabAndLine :=
  let (sess', s?) := find_pc_sect_symtab sess msymAt pc sec
  match s? with
  | none =>
    -- no symbol information: return the (un-fudged) pc with zeroed line
    let pcBack := if notcurrent then pc + 1 else pc
    (sess', { symtab := none, line := 0, pc := pcBack, endAddr := 0 })
  | some k0 =>
    match sess'.symtabs[k0]? with
    | none => (sess', { symtab := none, line := 0, pc := pc, endAddr := 0 })
    | some s0 =>
      let group := (sess'.symtabs.enum.drop k0).takeWhile fun p => p.2.bvId = s0.bvId
      let st := group.foldl (fpsl_step pc)
        { best := none, bestSymtab := none, bestEnd := 0, alt := none }
      match st.bestSymtab, st.best with
      | some bs, some b =>
        if b.line = 0 then
          (sess', { symtab := none, line := 0, pc := pc, endAddr := 0 })
        else
          let e :=
            if st.bestEnd != 0 && (match st.alt with
                                   | none => true
                                   | some a => decide (st.bestEnd < a.pc)) then st.bestEnd
            else
              match st.alt with
              | some a => a.pc
              | none => s0.bv.global.endAddr
          (sess', { symtab := some bs, line := b.line, pc := b.pc, endAddr := e })
      | _, _ => (sess', { symtab := none, line := 0, pc := pc, endAddr := 0 })

/-- `find_pc_sect_line` (symtab.c:2103-2334).  `notcurrent` backs the pc
up one byte first.  A solib trampoline at PC redirects to the real
function's address (via the external text-symbol lookup `msymText`);
the fuel bounds that redirect chain, which the C does not bound. -/
def find_pc_sect_line (fuel : Nat) (sess : Session)
    (msymAt : Nat → Option Minsym) (msymText : String → Option Minsym)
    (pc0 : Nat) (sec : Option Nat) (notcurrent : Bool) :
    Session × SymtabAndLine :=
  let pc := if notcurrent then pc0 - 1 else pc0
  match fuel with
  | 0 => fpsl_core sess msymAt pc sec notcurrent
  | fuel' + 1 =>
    match msymAt pc with
    | none => fpsl_core sess msymAt pc sec notcurrent
    | some m =>
      if m.mtype = MinsymType.mstSolibTrampoline then
        match msymText m.linkage with
        | none => fpsl_core sess msymAt pc sec notcurrent
        | some mf =>
          if mf.value = m.value then fpsl_core sess msymAt pc sec notcurrent
          else find_pc_sect_line fuel' sess msymAt msymText mf.value none false
      else fpsl_core sess msymAt pc sec notcurrent

/-! ## Line → address: find_line_common / find_line_symtab / find_line_pc -/

/-- The best-candidate update of find_line_common's scan
(symtab.c:2549-2553): record the entry when its line supersedes LINENO
and improves on the best superseding line seen so far (0 = none yet). -/
def flc_step (lineno : Nat) (st : Option Nat × Nat) (p : Nat × LineEntry) :
    Option Nat × Nat :=
  if lineno < p.2.line ∧ (st.2 = 0 ∨ p.2.line < st.2) then (some p.1, p.2.line)
  else st

/-- `find_line_common` (symtab.c:2515-2557): the index of the first
entry with exactly LINENO (exact match), else the index of the entry
holding the smallest line number above LINENO (earliest such index), else
none.  The C's -1 return is `none`. -/
def find_line_common (l : Option (List LineEntry)) (lineno : Nat) :
    Option Nat × Bool :=
  if lineno = 0 then (none, false)
  else
    match l with
    | none => (none, false)
    | some items =>
      match items.findIdx? (fun it => it.line = lineno) with
      | some i => (some i, true)
      | none =>
        let st := items.enum.foldl (flc_step lineno) (none, 0)
        (st.1, false)

/-- The expansion pass of find_line_symtab (symtab.c:2398-2403): force
`PSYMTAB_TO_SYMTAB` on every Compact Index carrying the queried
table's filename (a no-op on already-expanded units). -/
def expandMatching (sess : Session) (fname : String) : Session :=
  let rec go (sess : Session) : List Nat → Session
    | [] => sess
    | i :: rest =>
      match sess.psymtabs[i]? with
      | none => go sess rest
      | some ps =>
        if ps.filename = fname then go (psymtab_to_symtab sess i).1 rest
        else go sess rest
  go sess (List.range sess.psymtabs.length)

/-- The cross-table scan of find_line_symtab (symtab.c:2405-2431) over
the (post-expansion) table list: state is (best superseding line or 0,
best symtab index, best entry index, last exact flag). -/
def fls_scan (fname : String) (line : Nat) :
    List (Nat × Symtab) → Nat → Nat → Option Nat → Bool →
    Nat × Option Nat × Bool
  | [], _, bestSymtab, bestIndex, exact => (bestSymtab, bestIndex, exact)
  | q :: rest, best, bestSymtab, bestIndex, exact =>
    if q.2.filename = fname then
      let r := find_line_common q.2.linetable line
      match r.1 with
      | some ind =>
        if r.2 then (q.1, some ind, true)
        else
          let lval := ((q.2.linetable.getD []).get? ind).map LineEntry.line |>.getD 0
          if best = 0 ∨ lval < best then
            fls_scan fname line rest lval q.1 (some ind) r.2
          else fls_scan fname line rest best bestSymtab bestIndex r.2
      | none => fls_scan fname line rest best bestSymtab bestIndex r.2
    else fls_scan fname line rest best bestSymtab bestIndex exact

/-- The initial `best` of find_line_symtab's scan (symtab.c:2393-2396):
the line number of the queried table's own candidate entry, or 0 when it
has none. -/
def flsBest0 (lt : Option (List LineEntry)) (bI : Option Nat) : Nat :=
  match bI with
  | some bi => (((lt.getD []).get? bi).map LineEntry.line).getD 0
  | none => 0

/-- `find_line_symtab` (symtab.c:2359-2443): find LINE in any symtab
sharing the queried symtab's filename.  Returns the updated session and,
on success, (symtab index, line-table entry index, exact flag). -/
def find_line_symtab (sess : Session) (stIdx : Nat) (line : Nat) :
    Session × Option (Nat × Nat × Bool) :=
  match sess.symtabs[stIdx]? with
  | none => (sess, none)
  | some symtab =>
    let (bestIndex?, exact) := find_line_common symtab.linetable line
    if bestIndex?.isSome && exact then
      (sess, bestIndex?.map fun bi => (stIdx, bi, true))
    else
      let best0 := flsBest0 symtab.linetable bestIndex?
      let sess' := expandMatching sess symtab.filename
      let (bs, bi?, ex) := fls_scan symtab.filename line sess'.symtabs.enum
        best0 stIdx bestIndex? exact
      match bi? with
      | none => (sess', none)
      | some bi => (sess', some (bs, bi, ex))

/-- `find_line_pc` (symtab.c:2449-2468): the address stored at the entry
find_line_symtab settles on; 0 (with failure flag) when the line cannot
be found. -/
def find_line_pc (sess : Session) (stIdx : Nat) (line : Nat) :
    Session × Option Nat :=
  let (sess', r) := find_line_symtab sess stIdx line
  match r with
  | none => (sess', none)
  | some (si, ind, _) =>
    (sess', ((sess'.symtabs[si]?.bind (·.linetable)).getD []).get? ind |>.map LineEntry.pc)

/-! ## Search: search_symbols -/

/-- `VARIABLES_DOMAIN .. METHODS_DOMAIN`, the search domains. -/
inductive SearchKind where
  | variables
  | functions
  | types
  | methods
  deriving DecidableEq, Repr

/-- The four minimal-symbol types search_symbols accepts per search
domain (the `types`..`types4` arrays, symtab.c:3015-3026). -/
def ourtypes : SearchKind → List MinsymType
  | .variables => [.mstData, .mstBss, .mstFileData, .mstFileBss]
  | .functions => [.mstText, .mstFileText, .mstSolibTrampoline, .mstText]
  | .types => [.mstAbs, .mstAbs, .mstAbs, .mstAbs]
  | .methods => [.mstUnknown, .mstUnknown, .mstUnknown, .mstUnknown]

/-- `file_matches` (symtab.c:2893-2909); the C compares against
`lbasename (file)` (an external path helper), modelled as comparison of
the stored filename. -/
def file_matches (file : String) (files : List String) : Bool :=
  if files ≠ [] then files.any fun f => f = file
  else true

/-- The per-full-symbol match test of search_symbols (symtab.c:3200-3208):
file filter, regexp on the natural name, and the domain/storage-class
filter — a variables search excludes typedefs, functions and constants;
functions and methods searches take exactly the LOC_BLOCK symbols; a
types search takes the typedefs. -/
def search_sym_matches (kind : SearchKind) (re : Option (String → Bool))
    (files : List String) (fname : String) (sym : Symbol) : Bool :=
  file_matches fname files
  && (match re with
      | some f => f sym.name
      | none => true)
  && (match kind with
      | .variables => sym.cls ≠ SymClass.locTypedef && sym.cls ≠ SymClass.locBlock
                      && sym.cls ≠ SymClass.locConst
      | .functions => sym.cls = SymClass.locBlock
      | .types => sym.cls = SymClass.locTypedef
      | .methods => sym.cls = SymClass.locBlock)

/-- The partial-symbol variant of the match test (symtab.c:3125-3132);
note it does not exclude LOC_CONST from a variables search. -/
def search_psym_matches (kind : SearchKind) (re : Option (String → Bool))
    (files : List String) (fname : String) (sym : Symbol) : Bool :=
  file_matches fname files
  && (match re with
      | some f => f sym.name
      | none => true)
  && (match kind with
      | .variables => sym.cls ≠ SymClass.locTypedef && sym.cls ≠ SymClass.locBlock
      | .functions => sym.cls = SymClass.locBlock
      | .types => sym.cls = SymClass.locTypedef
      | .methods => sym.cls = SymClass.locBlock)

/-- `struct symbol_search`: one search match — a debug symbol with its
block kind and owning table, or a minimal symbol with neither. -/
structure SymbolSearch where
  blockKind : BlockIndex
  symtabIdx : Option Nat
  symbol : Option Symbol
  msymbol : Option Minsym
  deriving DecidableEq, Repr

/-- The Compact Index prefilter of search_symbols (symtab.c:3087-3140):
expand every unexpanded unit holding at least one matching partial
symbol. -/
def search_expand_psymtabs (sess : Session) (kind : SearchKind)
    (re : Option (String → Bool)) (files : List String) : Session :=
  let rec go (sess : Session) : List Nat → Session
    | [] => sess
    | i :: rest =>
      match sess.psymtabs[i]? with
      | none => go sess rest
      | some ps =>
        if !ps.readin
           && ((ps.globals ++ ps.statics).any fun p =>
                search_psym_matches kind re files ps.filename p) then
          go (psymtab_to_symtab sess i).1 rest
        else go sess rest
  go sess (List.range sess.psymtabs.length)

/-- Sort a per-block batch of matches by natural name
(sort_search_symbols, symtab.c:2952-2982, via compare_search_syms). -/
def sort_search_symbols (batch : List SymbolSearch) : List SymbolSearch :=
  batch.mergeSort fun a b =>
    ((a.symbol.map Symbol.name).getD "") ≤ ((b.symbol.map Symbol.name).getD "")

/-- The full-table scan of search_symbols (symtab.c:3187-3241): for each
primary table and each of its global and static blocks, collect the
matching symbols in dictionary order, each block batch alphabetized. -/
def search_full_symtabs (sess : Session) (kind : SearchKind)
    (re : Option (String → Bool)) (files : List String) : List SymbolSearch :=
  (sess.symtabs.enum.filter fun p => p.2.primary).flatMap fun (i, s) =>
    [BlockIndex.globalBlock, BlockIndex.staticBlock].flatMap fun bk =>
      sort_search_symbols <|
        ((s.bv.at_ bk).dict.filter fun sym =>
          search_sym_matches kind re files s.filename sym).map fun sym =>
            { blockKind := bk, symtabIdx := some i,
              symbol := some sym, msymbol := none }

/-- The found_misc pass of search_symbols (symtab.c:3155-3185): whether
some matching minimal symbol has no full debug info.  The re-entrant
calls into this same subsystem — `find_pc_symtab` on the symbol's
address and `lookup_symbol` on its linkage name — enter as the
predicates `hasSymtab` and `lookupFails`. -/
def search_found_misc (sess : Session) (kind : SearchKind)
    (re : Option (String → Bool)) (files : List String)
    (hasSymtab : Minsym → Bool) (lookupFails : Minsym → Bool) : Bool :=
  if files = [] && (kind = SearchKind.variables || kind = SearchKind.functions) then
    sess.msymbols.any fun m =>
      (ourtypes kind).contains m.mtype
      && (match re with
          | some f => f m.name
          | none => true)
      && !hasSymtab m
      && (kind = SearchKind.functions || lookupFails m)
  else false

/-- The minimal-symbol output pass of search_symbols
(symtab.c:3246-3287): print non-debug matches, suppressing any whose
name resolves through full debug info.  The C reuses the stale loop
variable `i` (left at STATIC_BLOCK) for these entries' block kind. -/
def search_minsyms (sess : Session) (kind : SearchKind)
    (re : Option (String → Bool)) (hasSymtab : Minsym → Bool)
    (lookupFails : Minsym → Bool) : List SymbolSearch :=
  (sess.msymbols.filter fun m =>
    (ourtypes kind).contains m.mtype
    && (match re with
        | some f => f m.name
        | none => true)
    && (kind ≠ SearchKind.functions || !hasSymtab m)
    && lookupFails m).map fun m =>
      { blockKind := BlockIndex.staticBlock, symtabIdx := none,
        symbol := none, msymbol := some m }

/-- `search_symbols` (symtab.c:2999-3292): compiled regexp, search
domain and file filter against the whole catalog.  Returns the session
after forced expansions and the match list.  `hasSymtab` and
`lookupFails` abstract the re-entrant find_pc_symtab / lookup_symbol
calls made for minimal symbols. -/
def search_symbols (sess : Session) (kind : SearchKind)
    (re : Option (String → Bool)) (files : List String)
    (hasSymtab : Minsym → Bool) (lookupFails : Minsym → Bool) :
    Session × List SymbolSearch :=
  let sess1 := search_expand_psymtabs sess kind re files
  let foundMisc := search_found_misc sess1 kind re files hasSymtab lookupFails
  let sr := search_full_symtabs sess1 kind re files
  let tailMatches :=
    if foundMisc || kind ≠ SearchKind.functions then
      search_minsyms sess1 kind re hasSymtab lookupFails
    else []
  (sess1, sr ++ tailMatches)

/-- A session is the model of one module's catalog; the model's sessions
never contain a symbol in both debug and non-debug form unless stated. -/
def Session.empty : Session :=
  { reordered := false, addrmap := none, psymtabs := [], symtabs := [],
    msymbols := [], reads := 0 }

/-! # Settling the claims -/

/-- C7, counterexample: with demanglers under which the Objective-C and
plain C++ attempts fail but the C++-with-Java-option attempt succeeds,
inserting a symbol of unknown language stores no display form and leaves
the language at the unresolved `auto` marker — the Java-flavoured
candidate, which the claim says is attempted third and should have fixed
the language and display form, is never consulted for an
unknown-language symbol. -/
theorem C7_counterexample :
    ((Demanglers.mk (fun _ => none) (fun j _ => if j then some "dj" else none)).cplus
        true "mangled").isSome = true
    ∧ (symbol_set_names
        (Demanglers.mk (fun _ => none) (fun j _ => if j then some "dj" else none))
        (GSymbol.mk Language.unknown "" none) "mangled" []).1.demangled = none
    ∧ (symbol_set_names
        (Demanglers.mk (fun _ => none) (fun j _ => if j then some "dj" else none))
        (GSymbol.mk Language.unknown "" none) "mangled" []).1.lang = Language.auto :=
  ⟨rfl, rfl, rfl⟩

/-- C7, amended: for a symbol whose language is unknown at insertion
time, the candidates are attempted in the order Objective-C-style then
C++-style — the C++-with-Java-option demangling is never attempted for
an unknown-language symbol (only when the language is already Java) —
the first success fixing the symbol's language and display form; if both
fail, the stored name is the raw linkage name with no display form and
the language is left at the unresolved `auto` marker. -/
theorem C7_unknown_language_demangling (d : Demanglers) (m : String) :
    symbol_set_names d (GSymbol.mk Language.unknown "" none) m [] =
      match d.objc m with
      | some dem =>
        (GSymbol.mk Language.objc m (some dem), [(m, (m, some dem))])
      | none =>
        match d.cplus false m with
        | some dem =>
          (GSymbol.mk Language.cplus m (some dem), [(m, (m, some dem))])
        | none => (GSymbol.mk Language.auto m none, [(m, (m, none))]) := by
  cases h1 : d.objc m with
  | some dem => simp [symbol_set_names, symbol_find_demangled_name, h1]
  | none =>
    cases h2 : d.cplus false m <;>
      simp [symbol_set_names, symbol_find_demangled_name, h1, h2]

/-- C4: promoting a Compact Index to a Full Table is idempotent —
expanding the unit a second time returns the identical session and table
handle, and in particular performs no further reader invocation (the
read counter is unchanged), so every resolution path that re-triggers
expansion observes the already-expanded state. -/
theorem C4_expansion_idempotent (sess : Session) (i : Nat) :
    psymtab_to_symtab (psymtab_to_symtab sess i).1 i = psymtab_to_symtab sess i
    ∧ (psymtab_to_symtab (psymtab_to_symtab sess i).1 i).1.reads
        = (psymtab_to_symtab sess i).1.reads := by
  have main : psymtab_to_symtab (psymtab_to_symtab sess i).1 i
      = psymtab_to_symtab sess i := by
    cases hps : sess.psymtabs[i]? with
    | none => simp [psymtab_to_symtab, hps]
    | some ps =>
      cases hidx : ps.symtabIdx with
      | some k => simp [psymtab_to_symtab, hps, hidx]
      | none =>
        cases hr : ps.readin with
        | true => simp [psymtab_to_symtab, hps, hidx, hr]
        | false =>
          have hlt : i < sess.psymtabs.length := by
            rcases List.getElem?_eq_some_iff.mp hps with ⟨h, _⟩
            exact h
          simp only [psymtab_to_symtab, hps, hidx, hr]
          simp [List.getElem?_set_self (by simpa using hlt)]
  exact ⟨main, by rw [main]⟩

/-- The function-block loop of lookup_block_symbol, characterized: the
first non-parameter match wins, else the last match, else the
accumulator. -/
theorem lookup_block_symbol_fn_spec (ln : Option String) (dom : Domain) :
    ∀ (l : List Symbol) (acc : Option Symbol),
      lookup_block_symbol_fn ln dom l acc =
        (((l.filter fun s => blockSymMatch s ln dom).find? fun s => !s.isArg).or
          (((l.filter fun s => blockSymMatch s ln dom).getLast?).or acc))
  | [], acc => by simp [lookup_block_symbol_fn]
  | s :: rest, acc => by
    by_cases hm : blockSymMatch s ln dom
    · by_cases ha : s.isArg
      · rw [show lookup_block_symbol_fn ln dom (s :: rest) acc
              = lookup_block_symbol_fn ln dom rest (some s) by
            simp [lookup_block_symbol_fn, hm, ha]]
        rw [lookup_block_symbol_fn_spec ln dom rest (some s)]
        simp only [List.filter_cons, hm, if_pos]
        rw [List.find?_cons_of_neg _ (by simp [ha])]
        cases hfr : (rest.filter fun s => blockSymMatch s ln dom) with
        | nil => simp
        | cons t ts =>
          obtain ⟨x, hx⟩ := Option.isSome_iff_exists.mp
            (List.getLast?_isSome.mpr (List.cons_ne_nil t ts))
          simp [List.getLast?_cons_cons, hx]
      · have hlhs : lookup_block_symbol_fn ln dom (s :: rest) acc = some s := by
          simp [lookup_block_symbol_fn, hm, ha]
        rw [hlhs]
        simp only [List.filter_cons, hm, if_pos]
        rw [List.find?_cons_of_pos _ (by simp [ha])]
        simp
    · simp only [show lookup_block_symbol_fn ln dom (s :: rest) acc
          = lookup_block_symbol_fn ln dom rest acc by
        simp [lookup_block_symbol_fn, hm]]
      rw [lookup_block_symbol_fn_spec ln dom rest acc]
      simp [List.filter_cons, hm]

/-- C8: in a function block, block-level lookup returns the first
non-parameter symbol among the matches for the queried name and domain,
and falls back to the last match — necessarily a parameter — only when
every match is a parameter. -/
theorem C8_function_block_param_preference (block : Blk) (name : String)
    (ln : Option String) (dom : Domain) (hf : block.isFunction = true) :
    lookup_block_symbol block name ln dom =
      ((((dict_iter_name block.dict name).filter fun s =>
          blockSymMatch s ln dom).find? fun s => !s.isArg).or
        ((dict_iter_name block.dict name).filter fun s =>
          blockSymMatch s ln dom).getLast?)
    ∧ (∀ s, lookup_block_symbol block name ln dom = some s → s.isArg = true →
        ∀ t ∈ (dict_iter_name block.dict name).filter fun s =>
          blockSymMatch s ln dom, t.isArg = true) := by
  have heq : lookup_block_symbol block name ln dom =
      ((((dict_iter_name block.dict name).filter fun s =>
          blockSymMatch s ln dom).find? fun s => !s.isArg).or
        ((dict_iter_name block.dict name).filter fun s =>
          blockSymMatch s ln dom).getLast?) := by
    rw [show lookup_block_symbol block name ln dom
        = lookup_block_symbol_fn ln dom (dict_iter_name block.dict name) none by
      simp [lookup_block_symbol, hf]]
    rw [lookup_block_symbol_fn_spec]
    rw [Option.or_none]
  refine ⟨heq, fun s hs harg t ht => ?_⟩
  rw [heq] at hs
  cases hfind : ((dict_iter_name block.dict name).filter fun s =>
      blockSymMatch s ln dom).find? (fun s => !s.isArg) with
  | some u =>
    rw [hfind, Option.or_some] at hs
    have hu := List.find?_some hfind
    cases hs
    simp [harg] at hu
  | none =>
    have := List.find?_eq_none.mp hfind t ht
    simpa using this

/-- C10: whenever name lookup is called with a non-null
is-a-field-of-this request and returns with the flag set, the returned
symbol is null, the local-scope pass had failed, the language defines a
receiver variable, and that receiver resolved to an aggregate whose
fields contain the name; on every other successful path the flag is
returned as 0 (it is cleared before any search step). -/
theorem C10_field_of_this_flag (sess : Session)
    (nl : Session → String → Option String → Option Blk → Domain →
      Except LookupError (Session × Option Symbol))
    (nameOfThis : Option String) (checkField : Symbol → String → Bool)
    (name : String) (ln : Option String) (block : Option Blk) (dom : Domain)
    (s' : Session) (sym? : Option Symbol)
    (h : lookup_symbol_aux sess nl nameOfThis checkField name ln block dom true
          = .ok (s', sym?, true)) :
    sym? = none ∧ s' = sess
    ∧ lookup_symbol_aux_local name ln block dom = none
    ∧ ∃ thisName ts, nameOfThis = some thisName
        ∧ lookup_this_symbol thisName block = some ts
        ∧ ts.aggregate = true ∧ checkField ts name = true := by
  have rest_flag : ∀ (s'' : Session) (r : Option Symbol),
      lookup_symbol_aux_rest sess nl name ln block dom = .ok (s'', r, true) → False := by
    intro s'' r hr
    unfold lookup_symbol_aux_rest at hr
    cases hn : nl sess name ln block dom with
    | error e => rw [hn] at hr; simp at hr
    | ok p =>
      obtain ⟨s1, sym1⟩ := p
      rw [hn] at hr
      cases sym1 with
      | some s => simp at hr
      | none =>
        simp only at hr
        cases hs : lookup_symbol_aux_symtabs s1 .staticBlock name ln dom with
        | some s => rw [hs] at hr; simp at hr
        | none =>
          rw [hs] at hr
          cases hp : lookup_symbol_aux_psymtabs s1 .staticBlock name ln dom with
          | error e => rw [hp] at hr; simp at hr
          | ok q => rw [hp] at hr; obtain ⟨s2, r2⟩ := q; simp at hr
  unfold lookup_symbol_aux at h
  cases hl : lookup_symbol_aux_local name ln block dom with
  | some s => rw [hl] at h; simp at h
  | none =>
    rw [hl] at h
    cases nameOfThis with
    | none => exact absurd h (fun hh => rest_flag _ _ hh)
    | some thisName =>
      simp only [Bool.true_and] at h
      by_cases hb : block.isSome
      · rw [if_pos hb] at h
        cases hts : lookup_this_symbol thisName block with
        | none =>
          simp only [hts] at h
          exact absurd h (fun hh => rest_flag _ _ hh)
        | some ts =>
          simp only [hts] at h
          by_cases hagg : ts.aggregate
          · simp only [hagg, Bool.not_true] at h
            rw [if_neg (by simp)] at h
            by_cases hcf : checkField ts name
            · rw [if_pos hcf] at h
              injection h with h'
              injection h' with h1 h2
              injection h2 with h3 h4
              exact ⟨h3.symm, h1.symm, rfl,
                thisName, ts, rfl, hts, hagg, hcf⟩
            · rw [if_neg hcf] at h
              exact absurd h (fun hh => rest_flag _ _ hh)
          · have hagg' : ts.aggregate = false := by simpa using hagg
            simp only [hagg', Bool.not_false] at h
            rw [if_pos trivial] at h
            simp at h
      · rw [if_neg hb] at h
        exact absurd h (fun hh => rest_flag _ _ hh)

/-- Witness for C8: a function block holding a parameter `x` and a local
`x` (in that dictionary order) returns the local. -/
theorem C8_function_block_param_preference_witness :
    lookup_block_symbol
      (Blk.mk 0 10
        [Symbol.mk "x" "x" Language.c Domain.varDomain SymClass.locArg true 0 none false,
         Symbol.mk "x" "x" Language.c Domain.varDomain SymClass.locStatic false 4 none false]
        true none)
      "x" none Domain.varDomain
    = some (Symbol.mk "x" "x" Language.c Domain.varDomain SymClass.locStatic
        false 4 none false) := by
  have h := C8_function_block_param_preference
    (Blk.mk 0 10
      [Symbol.mk "x" "x" Language.c Domain.varDomain SymClass.locArg true 0 none false,
       Symbol.mk "x" "x" Language.c Domain.varDomain SymClass.locStatic false 4 none false]
      true none)
    "x" none Domain.varDomain rfl
  exact h.1.trans (by rfl)

/-- Witness for C10: a lookup from inside a function block whose
dictionary holds an aggregate-typed "this", with a field predicate that
accepts the name, returns a null symbol with the flag set. -/
theorem C10_field_of_this_flag_witness :
    (none : Option Symbol) = none ∧ Session.empty = Session.empty
    ∧ lookup_symbol_aux_local "x" none
        (some (Blk.mk 0 10
          [Symbol.mk "this" "this" Language.c Domain.varDomain SymClass.locArg true 0 none true]
          true (some (Blk.mk 0 100 [] false (some (Blk.mk 0 100 [] false none))))))
        Domain.varDomain = none
    ∧ ∃ thisName ts, (some "this") = some thisName
        ∧ lookup_this_symbol thisName
            (some (Blk.mk 0 10
              [Symbol.mk "this" "this" Language.c Domain.varDomain SymClass.locArg true 0 none true]
              true (some (Blk.mk 0 100 [] false (some (Blk.mk 0 100 [] false none))))))
          = some ts
        ∧ ts.aggregate = true ∧ (fun (_ : Symbol) (_ : String) => true) ts "x" = true :=
  C10_field_of_this_flag Session.empty (fun s _ _ _ _ => .ok (s, none))
    (some "this") (fun _ _ => true) "x" none
    (some (Blk.mk 0 10
      [Symbol.mk "this" "this" Language.c Domain.varDomain SymClass.locArg true 0 none true]
      true (some (Blk.mk 0 100 [] false (some (Blk.mk 0 100 [] false none))))))
    Domain.varDomain Session.empty none (by
      simp [lookup_symbol_aux, lookup_symbol_aux_local, block_static_block,
        lookup_local_walk, lookup_symbol_aux_block, lookup_block_symbol,
        dict_iter_name, blockSymMatch, symbol_matches_domain, ne_eq, blockChain,
        Blk.dict, Blk.isFunction, Blk.superblock, Blk.startAddr, Blk.endAddr,
        lookup_block_symbol_fn, lookup_this_symbol, findFunctionBlock])

/-- The Compact-Index scan of lookup_symbol_aux_psymtabs skips every
unit that is already expanded or whose queried partition lacks the
name. -/
theorem lookup_aux_psymtabs_go_skip (sess : Session) (bi : BlockIndex)
    (name : String) (ln : Option String) (dom : Domain)
    (L1 L2 : List (Nat × Psymtab))
    (hbefore : ∀ p ∈ L1,
      (!p.2.readin && (lookup_partial_symbol p.2 name ln
          (bi = BlockIndex.globalBlock) dom).isSome) = false) :
    lookup_symbol_aux_psymtabs.go sess bi name ln dom (L1 ++ L2)
      = lookup_symbol_aux_psymtabs.go sess bi name ln dom L2 := by
  induction L1 with
  | nil => simp
  | cons p rest ih =>
    obtain ⟨j, q⟩ := p
    rw [List.cons_append, lookup_symbol_aux_psymtabs.go]
    rw [if_neg (by simp [hbefore (j, q) (by simp)])]
    exact ih fun p hp => hbefore p (by simp [hp])

/-- C6: when a Compact Index reports the name in one partition and the
unit's expanded table lacks a matching symbol in the corresponding
block, the lookup re-scans the opposite block once: a symbol found there
is returned, and an absent symbol raises the diagnosable internal
inconsistency — the lookup never silently returns a wrong answer or a
not-found result in that situation. -/
theorem C6_index_table_disagreement_fallback (sess : Session)
    (bi : BlockIndex) (name : String) (ln : Option String) (dom : Domain)
    (L1 L2 : List (Nat × Psymtab)) (i : Nat) (ps : Psymtab) (s : Symtab)
    (hsplit : sess.psymtabs.enum = L1 ++ (i, ps) :: L2)
    (hbefore : ∀ p ∈ L1,
      (!p.2.readin && (lookup_partial_symbol p.2 name ln
          (bi = BlockIndex.globalBlock) dom).isSome) = false)
    (htrig : (!ps.readin && (lookup_partial_symbol ps name ln
        (bi = BlockIndex.globalBlock) dom).isSome) = true)
    (hget : sess.psymtabs[i]? = some ps)
    (hfresh : ps.symtabIdx = none)
    (hexp : ps.expansion.head? = some s) :
    lookup_symbol_aux_psymtabs sess bi name ln dom =
      (match lookup_block_symbol (s.bv.at_ bi) name ln dom with
       | some sym =>
         .ok ({ sess with
                  symtabs := sess.symtabs ++ ps.expansion,
                  psymtabs := sess.psymtabs.set i
                    { ps with readin := true, symtabIdx := some sess.symtabs.length },
                  reads := sess.reads + 1 }, some sym)
       | none =>
         match lookup_block_symbol (s.bv.at_ bi.other) name ln dom with
         | some sym =>
           .ok ({ sess with
                    symtabs := sess.symtabs ++ ps.expansion,
                    psymtabs := sess.psymtabs.set i
                      { ps with readin := true, symtabIdx := some sess.symtabs.length },
                    reads := sess.reads + 1 }, some sym)
         | none => .error (.internalInconsistency bi name)) := by
  have hr : ps.readin = false := by
    rcases Bool.and_eq_true_iff.mp htrig with ⟨h1, _⟩
    simpa using h1
  unfold lookup_symbol_aux_psymtabs
  rw [hsplit, lookup_aux_psymtabs_go_skip sess bi name ln dom L1 _ hbefore]
  rw [lookup_symbol_aux_psymtabs.go]
  rw [if_pos htrig]
  have hexpand : psymtab_to_symtab sess i =
      ({ sess with
          symtabs := sess.symtabs ++ ps.expansion,
          psymtabs := sess.psymtabs.set i
            { ps with readin := true, symtabIdx := some sess.symtabs.length },
          reads := sess.reads + 1 }, some sess.symtabs.length) := by
    unfold psymtab_to_symtab
    rw [hget]
    simp [hfresh, hr]
  rw [hexpand]
  have hgetk : (sess.symtabs ++ ps.expansion)[sess.symtabs.length]? = some s := by
    rw [List.getElem?_append_right (le_refl _)]
    simpa [← List.head?_eq_getElem?] using hexp
  simp only [hgetk]

/-- Witness for C6: a unit whose index lists `g` as global while the
expanded table stores it in the static block; the lookup returns the
static-block symbol via the one-shot fallback. -/
theorem C6_index_table_disagreement_fallback_witness :
    lookup_symbol_aux_psymtabs
      (Session.mk false none
        [Psymtab.mk "f.c" 0 0
          [Symbol.mk "g" "g" Language.c Domain.varDomain SymClass.locStatic false 0 none false]
          [] false none
          [Symtab.mk "f.c" 0
            (Blockvector.mk (Blk.mk 0 100 [] false none)
              (Blk.mk 0 100
                [Symbol.mk "g" "g" Language.c Domain.varDomain SymClass.locStatic false 4 none false]
                false (some (Blk.mk 0 100 [] false none))))
            none true]]
        [] [] 0)
      BlockIndex.globalBlock "g" none Domain.varDomain
    = .ok
      (Session.mk false none
        [Psymtab.mk "f.c" 0 0
          [Symbol.mk "g" "g" Language.c Domain.varDomain SymClass.locStatic false 0 none false]
          [] true (some 0)
          [Symtab.mk "f.c" 0
            (Blockvector.mk (Blk.mk 0 100 [] false none)
              (Blk.mk 0 100
                [Symbol.mk "g" "g" Language.c Domain.varDomain SymClass.locStatic false 4 none false]
                false (some (Blk.mk 0 100 [] false none))))
            none true]]
        [Symtab.mk "f.c" 0
          (Blockvector.mk (Blk.mk 0 100 [] false none)
            (Blk.mk 0 100
              [Symbol.mk "g" "g" Language.c Domain.varDomain SymClass.locStatic false 4 none false]
              false (some (Blk.mk 0 100 [] false none))))
          none true]
        [] 1,
       some (Symbol.mk "g" "g" Language.c Domain.varDomain SymClass.locStatic
          false 4 none false)) := by
  have h := C6_index_table_disagreement_fallback
    (Session.mk false none
      [Psymtab.mk "f.c" 0 0
        [Symbol.mk "g" "g" Language.c Domain.varDomain SymClass.locStatic false 0 none false]
        [] false none
        [Symtab.mk "f.c" 0
          (Blockvector.mk (Blk.mk 0 100 [] false none)
            (Blk.mk 0 100
              [Symbol.mk "g" "g" Language.c Domain.varDomain SymClass.locStatic false 4 none false]
              false (some (Blk.mk 0 100 [] false none))))
          none true]]
      [] [] 0)
    BlockIndex.globalBlock "g" none Domain.varDomain [] [] 0
    (Psymtab.mk "f.c" 0 0
      [Symbol.mk "g" "g" Language.c Domain.varDomain SymClass.locStatic false 0 none false]
      [] false none
      [Symtab.mk "f.c" 0
        (Blockvector.mk (Blk.mk 0 100 [] false none)
          (Blk.mk 0 100
            [Symbol.mk "g" "g" Language.c Domain.varDomain SymClass.locStatic false 4 none false]
            false (some (Blk.mk 0 100 [] false none))))
        none true])
    (Symtab.mk "f.c" 0
      (Blockvector.mk (Blk.mk 0 100 [] false none)
        (Blk.mk 0 100
          [Symbol.mk "g" "g" Language.c Domain.varDomain SymClass.locStatic false 4 none false]
          false (some (Blk.mk 0 100 [] false none))))
      none true)
    (by rfl) (by simp) (by rfl) (by rfl) (by rfl) (by rfl)
  exact h.trans (by rfl)

/-- A local walk over a chain none of whose blocks contain the name
finds nothing. -/
theorem lookup_local_walk_none (n : String) (ln : Option String) (dom : Domain)
    (sb : Blk) : ∀ (L : List Blk),
    (∀ c ∈ L, lookup_block_symbol c n ln dom = none) →
      lookup_local_walk n ln dom sb L = none
  | [], _ => rfl
  | b :: rest, h => by
    rw [lookup_local_walk]
    split
    · rfl
    · rw [show lookup_symbol_aux_block n ln b dom
          = lookup_block_symbol b n ln dom from rfl]
      rw [h b (List.mem_cons_self _ _)]
      exact lookup_local_walk_none n ln dom sb rest
        fun c hc => h c (List.mem_cons_of_mem _ hc)

/-- The static block returned by block_static_block lies on the block's
chain. -/
theorem block_static_block_mem_chain : ∀ (b sb : Blk),
    block_static_block b = some sb → sb ∈ blockChain (some b)
  | .mk a e d f none, sb, h => by
    rw [block_static_block] at h
    exact absurd h (by simp)
  | .mk a e d f (some p), sb, h => by
    rw [block_static_block] at h
    cases hp : p.superblock with
    | none =>
      rw [hp] at h
      injection h with h'
      rw [← h', blockChain]
      exact List.mem_cons_self _ _
    | some q =>
      rw [hp] at h
      have := block_static_block_mem_chain p sb h
      rw [blockChain]
      exact List.mem_cons_of_mem _ this

/-- A full-table scan over tables whose chosen blocks lack the name
finds nothing. -/
theorem lookup_aux_symtabs_go_none (bi : BlockIndex) (n : String)
    (ln : Option String) (dom : Domain) :
    ∀ (L : List Symtab),
    (∀ st ∈ L, lookup_block_symbol (st.bv.at_ bi) n ln dom = none) →
      lookup_symbol_aux_symtabs.go bi n ln dom L = none
  | [], _ => rfl
  | st :: rest, h => by
    rw [lookup_symbol_aux_symtabs.go]
    split
    · rw [h st (List.mem_cons_self _ _)]
      exact lookup_aux_symtabs_go_none bi n ln dom rest
        fun t ht => h t (List.mem_cons_of_mem _ ht)
    · exact lookup_aux_symtabs_go_none bi n ln dom rest
        fun t ht => h t (List.mem_cons_of_mem _ ht)

/-- A Compact-Index scan with no index hit anywhere returns not-found
with the session untouched. -/
theorem lookup_aux_psymtabs_none (sess : Session) (bi : BlockIndex)
    (n : String) (ln : Option String) (dom : Domain)
    (h : ∀ ps ∈ sess.psymtabs,
      lookup_partial_symbol ps n ln (bi = BlockIndex.globalBlock) dom = none) :
    lookup_symbol_aux_psymtabs sess bi n ln dom = .ok (sess, none) := by
  unfold lookup_symbol_aux_psymtabs
  have := lookup_aux_psymtabs_go_skip sess bi n ln dom sess.psymtabs.enum []
    (fun p hp => by
      have hmem : p.2 ∈ sess.psymtabs := by
        have := List.mem_enum_iff_getElem?.mp (by simpa using hp)
        exact List.getElem?_mem this
      simp [h p.2 hmem])
  rw [List.append_nil] at this
  rw [this]
  rfl

/-- C1: name resolution walks from the context block outward, stopping
before the static and global blocks, and returns the first match.
First conjunct: a name declared in no block of the outside context's
chain, no file-static or global block, and no Compact Index partition is
not found (a symbol declared only inside function F's block is invisible
from a context outside F).  Second conjunct: a lookup from inside F
returns F's own symbol at once — whatever same-named symbols any global
block of the session holds — so a local declaration shadows a same-named
global. -/
theorem C1_scoped_resolution (sess : Session)
    (solib : String → Option String → Domain → Option Symbol)
    (checkField : Symbol → String → Bool) (n : String) (ln : Option String)
    (dom : Domain) :
    (∀ (ctxOut : Option Blk) (w : Bool),
      (∀ c ∈ blockChain ctxOut, lookup_block_symbol c n ln dom = none) →
      (∀ st ∈ sess.symtabs,
        lookup_block_symbol (st.bv.static_) n ln dom = none
        ∧ lookup_block_symbol (st.bv.global) n ln dom = none) →
      (∀ ps ∈ sess.psymtabs,
        lookup_partial_symbol ps n ln true dom = none
        ∧ lookup_partial_symbol ps n ln false dom = none) →
      (solib n ln dom = none) →
      lookup_symbol_aux sess
        (fun s nm l b dm => basic_lookup_symbol_nonlocal s solib nm l b dm)
        none checkField n ln ctxOut dom w = .ok (sess, none, false))
    ∧ (∀ (F sb : Blk) (symF : Symbol) (w : Bool)
        (nameOfThis : Option String)
        (nl : Session → String → Option String → Option Blk → Domain →
          Except LookupError (Session × Option Symbol)),
      block_static_block F = some sb → F ≠ sb →
      lookup_block_symbol F n ln dom = some symF →
      lookup_symbol_aux sess nl nameOfThis checkField n ln (some F) dom w
        = .ok (sess, some symF, false)) := by
  constructor
  · intro ctxOut w hchain hsym hpsym hsolib
    have hlocal : lookup_symbol_aux_local n ln ctxOut dom = none := by
      cases ctxOut with
      | none => rfl
      | some b =>
        cases hsb : block_static_block b with
        | none => simp [lookup_symbol_aux_local, hsb]
        | some sb =>
          simp only [lookup_symbol_aux_local, hsb]
          exact lookup_local_walk_none n ln dom sb (blockChain (some b)) hchain
    have hstatic : lookup_symbol_static n ln ctxOut dom = none := by
      cases ctxOut with
      | none => rfl
      | some b =>
        cases hsb : block_static_block b with
        | none => simp [lookup_symbol_static, hsb]
        | some sb =>
          simp only [lookup_symbol_static, hsb]
          exact hchain sb (block_static_block_mem_chain b sb hsb)
    have hsymtabs : ∀ bi, lookup_symbol_aux_symtabs sess bi n ln dom = none := by
      intro bi
      unfold lookup_symbol_aux_symtabs
      refine lookup_aux_symtabs_go_none bi n ln dom sess.symtabs fun st hst => ?_
      cases bi with
      | globalBlock => exact (hsym st hst).2
      | staticBlock => exact (hsym st hst).1
    have hpsymtabs : ∀ bi, lookup_symbol_aux_psymtabs sess bi n ln dom
        = .ok (sess, none) := by
      intro bi
      refine lookup_aux_psymtabs_none sess bi n ln dom fun ps hps => ?_
      cases bi with
      | globalBlock => simpa using (hpsym ps hps).1
      | staticBlock => simpa using (hpsym ps hps).2
    have hglobal : lookup_symbol_global sess solib n ln ctxOut dom
        = .ok (sess, none) := by
      unfold lookup_symbol_global
      cases hob : lookup_objfile_from_block sess ctxOut <;>
        simp [hsolib, hsymtabs, hpsymtabs]
    have hnonlocal : basic_lookup_symbol_nonlocal sess solib n ln ctxOut dom
        = .ok (sess, none) := by
      unfold basic_lookup_symbol_nonlocal
      rw [hstatic, hglobal]
    unfold lookup_symbol_aux lookup_symbol_aux_rest
    simp only [hlocal, hnonlocal, hsymtabs, hpsymtabs]
  · intro F sb symF w nameOfThis nl hsb hne hF
    have hlocal : lookup_symbol_aux_local n ln (some F) dom = some symF := by
      simp only [lookup_symbol_aux_local, hsb]
      obtain ⟨a, e, d, f, sup⟩ := F
      rw [show blockChain (some (Blk.mk a e d f sup))
          = Blk.mk a e d f sup :: blockChain sup by rw [blockChain]]
      rw [lookup_local_walk]
      rw [if_neg hne]
      rw [show lookup_symbol_aux_block n ln (Blk.mk a e d f sup) dom
          = lookup_block_symbol (Blk.mk a e d f sup) n ln dom from rfl]
      rw [hF]
    unfold lookup_symbol_aux
    simp only [hlocal]

/-- Witness for C1: in a session whose global block declares `v`, a
lookup for `w` (declared nowhere) from the static-block context finds
nothing, and a lookup for `v` from inside the function block returns the
function's local `v`, not the global one. -/
theorem C1_scoped_resolution_witness :
    lookup_symbol_aux (Session.mk false none [] [(Symtab.mk "f.c" 0 (Blockvector.mk (Blk.mk 0 100 [Symbol.mk "v" "v" Language.c Domain.varDomain SymClass.locStatic false 8 none false] false none) (Blk.mk 0 100 [] false (some (Blk.mk 0 100 [Symbol.mk "v" "v" Language.c Domain.varDomain SymClass.locStatic false 8 none false] false none)))) none true)] [] 0) (fun s nm l b dm => basic_lookup_symbol_nonlocal s (fun _ _ _ => none) nm l b dm) none (fun _ _ => false) "w" none
        (some (Blk.mk 0 100 [] false (some (Blk.mk 0 100 [Symbol.mk "v" "v" Language.c Domain.varDomain SymClass.locStatic false 8 none false] false none)))) Domain.varDomain false
      = .ok ((Session.mk false none [] [(Symtab.mk "f.c" 0 (Blockvector.mk (Blk.mk 0 100 [Symbol.mk "v" "v" Language.c Domain.varDomain SymClass.locStatic false 8 none false] false none) (Blk.mk 0 100 [] false (some (Blk.mk 0 100 [Symbol.mk "v" "v" Language.c Domain.varDomain SymClass.locStatic false 8 none false] false none)))) none true)] [] 0), none, false)
    ∧ lookup_symbol_aux (Session.mk false none [] [(Symtab.mk "f.c" 0 (Blockvector.mk (Blk.mk 0 100 [Symbol.mk "v" "v" Language.c Domain.varDomain SymClass.locStatic false 8 none false] false none) (Blk.mk 0 100 [] false (some (Blk.mk 0 100 [Symbol.mk "v" "v" Language.c Domain.varDomain SymClass.locStatic false 8 none false] false none)))) none true)] [] 0) (fun s nm l b dm => basic_lookup_symbol_nonlocal s (fun _ _ _ => none) nm l b dm) none (fun _ _ => false) "v" none
        (some (Blk.mk 0 10 [Symbol.mk "v" "v" Language.c Domain.varDomain SymClass.locStatic false 4 none false] true (some (Blk.mk 0 100 [] false (some (Blk.mk 0 100 [Symbol.mk "v" "v" Language.c Domain.varDomain SymClass.locStatic false 8 none false] false none)))))) Domain.varDomain false
      = .ok ((Session.mk false none [] [(Symtab.mk "f.c" 0 (Blockvector.mk (Blk.mk 0 100 [Symbol.mk "v" "v" Language.c Domain.varDomain SymClass.locStatic false 8 none false] false none) (Blk.mk 0 100 [] false (some (Blk.mk 0 100 [Symbol.mk "v" "v" Language.c Domain.varDomain SymClass.locStatic false 8 none false] false none)))) none true)] [] 0),
          some (Symbol.mk "v" "v" Language.c Domain.varDomain SymClass.locStatic
            false 4 none false), false) := by
  constructor
  · exact (C1_scoped_resolution (Session.mk false none [] [(Symtab.mk "f.c" 0 (Blockvector.mk (Blk.mk 0 100 [Symbol.mk "v" "v" Language.c Domain.varDomain SymClass.locStatic false 8 none false] false none) (Blk.mk 0 100 [] false (some (Blk.mk 0 100 [Symbol.mk "v" "v" Language.c Domain.varDomain SymClass.locStatic false 8 none false] false none)))) none true)] [] 0) (fun _ _ _ => none) (fun _ _ => false)
      "w" none Domain.varDomain).1 (some (Blk.mk 0 100 [] false (some (Blk.mk 0 100 [Symbol.mk "v" "v" Language.c Domain.varDomain SymClass.locStatic false 8 none false] false none)))) false
      (by
        intro c hc
        simp only [blockChain] at hc
        simp at hc
        rcases hc with rfl | rfl <;> rfl)
      (by
        intro st hst
        simp at hst
        subst hst
        exact ⟨rfl, rfl⟩)
      (by intro ps hps; simp at hps)
      rfl
  · exact (C1_scoped_resolution (Session.mk false none [] [(Symtab.mk "f.c" 0 (Blockvector.mk (Blk.mk 0 100 [Symbol.mk "v" "v" Language.c Domain.varDomain SymClass.locStatic false 8 none false] false none) (Blk.mk 0 100 [] false (some (Blk.mk 0 100 [Symbol.mk "v" "v" Language.c Domain.varDomain SymClass.locStatic false 8 none false] false none)))) none true)] [] 0) (fun _ _ _ => none) (fun _ _ => false)
      "v" none Domain.varDomain).2 (Blk.mk 0 10 [Symbol.mk "v" "v" Language.c Domain.varDomain SymClass.locStatic false 4 none false] true (some (Blk.mk 0 100 [] false (some (Blk.mk 0 100 [Symbol.mk "v" "v" Language.c Domain.varDomain SymClass.locStatic false 8 none false] false none))))) (Blk.mk 0 100 [] false (some (Blk.mk 0 100 [Symbol.mk "v" "v" Language.c Domain.varDomain SymClass.locStatic false 8 none false] false none)))
      (Symbol.mk "v" "v" Language.c Domain.varDomain SymClass.locStatic false 4 none false)
      false none (fun s nm l b dm => basic_lookup_symbol_nonlocal s (fun _ _ _ => none) nm l b dm)
      (by simp [block_static_block, Blk.superblock])
      (by simp)
      rfl

/-- C9: a symbol of storage class block (a function) held in a block of
a primary full table appears in a function-domain search whenever the
pattern accepts its name, and no entry of a variable-domain search ever
carries it, whatever the pattern. -/
theorem C9_search_domain_filter (sess : Session) (re : Option (String → Bool))
    (hasSymtab lookupFails : Minsym → Bool) (i : Nat) (st : Symtab)
    (bk : BlockIndex) (sym : Symbol)
    (hnops : sess.psymtabs = [])
    (hst : sess.symtabs[i]? = some st)
    (hprim : st.primary = true)
    (hmem : sym ∈ (st.bv.at_ bk).dict)
    (hcls : sym.cls = SymClass.locBlock) :
    ((match re with
      | some f => f sym.name
      | none => true) = true →
      (SymbolSearch.mk bk (some i) (some sym) none)
        ∈ (search_symbols sess .functions re [] hasSymtab lookupFails).2)
    ∧ (∀ e ∈ (search_symbols sess .variables re [] hasSymtab lookupFails).2,
        e.symbol ≠ some sym) := by
  have hexpand : ∀ kind re', search_expand_psymtabs sess kind re' [] = sess := by
    intro kind re'
    unfold search_expand_psymtabs
    rw [hnops]
    rfl
  constructor
  · intro hre
    unfold search_symbols
    rw [hexpand]
    apply List.mem_append_left
    unfold search_full_symtabs
    apply List.mem_flatMap.mpr
    refine ⟨(i, st), List.mem_filter.mpr ⟨List.mem_enum_iff_getElem?.mpr (by simpa using hst), hprim⟩, ?_⟩
    apply List.mem_flatMap.mpr
    refine ⟨bk, by cases bk <;> simp, ?_⟩
    unfold sort_search_symbols
    apply List.mem_mergeSort.mpr
    apply List.mem_map.mpr
    refine ⟨sym, List.mem_filter.mpr ⟨hmem, ?_⟩, rfl⟩
    unfold search_sym_matches file_matches
    simp [hre, hcls]
  · intro e he hesym
    unfold search_symbols at he
    rw [hexpand] at he
    rcases List.mem_append.mp he with hfull | htail
    · unfold search_full_symtabs at hfull
      obtain ⟨⟨j, s⟩, _, hin⟩ := List.mem_flatMap.mp hfull
      obtain ⟨bk', _, hin2⟩ := List.mem_flatMap.mp hin
      unfold sort_search_symbols at hin2
      obtain ⟨t, htf, hte⟩ := List.mem_map.mp (List.mem_mergeSort.mp hin2)
      have htmatch := (List.mem_filter.mp htf).2
      rw [← hte] at hesym
      injection hesym with hts
      subst hts
      unfold search_sym_matches at htmatch
      simp [hcls] at htmatch
    · by_cases hcond : (search_found_misc sess SearchKind.variables re []
          hasSymtab lookupFails || decide (SearchKind.variables ≠ SearchKind.functions)) = true
      · rw [if_pos hcond] at htail
        unfold search_minsyms at htail
        obtain ⟨m, _, hme⟩ := List.mem_map.mp htail
        rw [← hme] at hesym
        simp at hesym
      · rw [if_neg hcond] at htail
        simp at htail

/-- Witness for C9: a function symbol `main` in the global block shows
up in the function-domain search (empty pattern) and in no entry of the
variable-domain search. -/
theorem C9_search_domain_filter_witness :
    (SymbolSearch.mk BlockIndex.globalBlock (some 0) (some (Symbol.mk "main" "main" Language.c Domain.varDomain SymClass.locBlock false 0 none false)) none)
      ∈ (search_symbols (Session.mk false none [] [(Symtab.mk "f.c" 0 (Blockvector.mk (Blk.mk 0 100 [(Symbol.mk "main" "main" Language.c Domain.varDomain SymClass.locBlock false 0 none false)] false none) (Blk.mk 0 100 [] false (some (Blk.mk 0 100 [(Symbol.mk "main" "main" Language.c Domain.varDomain SymClass.locBlock false 0 none false)] false none)))) none true)] [] 0) .functions none [] (fun _ => false) (fun _ => true)).2
    ∧ (∀ e ∈ (search_symbols (Session.mk false none [] [(Symtab.mk "f.c" 0 (Blockvector.mk (Blk.mk 0 100 [(Symbol.mk "main" "main" Language.c Domain.varDomain SymClass.locBlock false 0 none false)] false none) (Blk.mk 0 100 [] false (some (Blk.mk 0 100 [(Symbol.mk "main" "main" Language.c Domain.varDomain SymClass.locBlock false 0 none false)] false none)))) none true)] [] 0) .variables none [] (fun _ => false) (fun _ => true)).2,
        e.symbol ≠ some (Symbol.mk "main" "main" Language.c Domain.varDomain SymClass.locBlock false 0 none false)) := by
  have h := C9_search_domain_filter (Session.mk false none [] [(Symtab.mk "f.c" 0 (Blockvector.mk (Blk.mk 0 100 [(Symbol.mk "main" "main" Language.c Domain.varDomain SymClass.locBlock false 0 none false)] false none) (Blk.mk 0 100 [] false (some (Blk.mk 0 100 [(Symbol.mk "main" "main" Language.c Domain.varDomain SymClass.locBlock false 0 none false)] false none)))) none true)] [] 0) none (fun _ => false) (fun _ => true)
    0 (Symtab.mk "f.c" 0 (Blockvector.mk (Blk.mk 0 100 [(Symbol.mk "main" "main" Language.c Domain.varDomain SymClass.locBlock false 0 none false)] false none) (Blk.mk 0 100 [] false (some (Blk.mk 0 100 [(Symbol.mk "main" "main" Language.c Domain.varDomain SymClass.locBlock false 0 none false)] false none)))) none true) BlockIndex.globalBlock (Symbol.mk "main" "main" Language.c Domain.varDomain SymClass.locBlock false 0 none false) rfl rfl rfl
    (List.mem_cons_self _ _) rfl
  exact ⟨h.1 rfl, h.2⟩

/-- Invariant of the find_pc_sect_psymbol scan: a chosen best symbol
carries the tracked best address and lies at or above the unit's
textlow. -/
theorem fps_step_inv (pc : Nat) (sec : Option Nat) (textlow : Nat)
    (st : Option Symbol × Nat) (p : Symbol)
    (h : match st.1 with
         | none => textlow ≤ st.2 + 1
         | some q => st.2 = q.value ∧ textlow ≤ q.value) :
    match (fps_step pc sec textlow st p).1 with
    | none => textlow ≤ (fps_step pc sec textlow st p).2 + 1
    | some q => (fps_step pc sec textlow st p).2 = q.value
        ∧ textlow ≤ q.value := by
  obtain ⟨b, bp⟩ := st
  unfold fps_step
  dsimp only
  by_cases hacc : (p.domain = Domain.varDomain && p.cls = SymClass.locBlock
      && p.value ≤ pc
      && (bp < p.value || (textlow == 0 && bp == 0 && p.value == 0))) = true
  · rw [if_pos hacc]
    have hval : textlow ≤ p.value := by
      have h3 : (bp < p.value || (textlow == 0 && bp == 0 && p.value == 0))
          = true := by
        simp only [Bool.and_eq_true] at hacc
        exact hacc.2
      rcases Bool.or_eq_true_iff.mp h3 with hlt | hzero
      · have hlt' : bp < p.value := by simpa using hlt
        cases hb : b with
        | none =>
          rw [hb] at h
          simp only at h
          omega
        | some q =>
          rw [hb] at h
          simp only at h
          omega
      · have : textlow = 0 := by
          simp only [Bool.and_eq_true, beq_iff_eq] at hzero
          exact hzero.1.1
        omega
    cases sec with
    | none => exact ⟨rfl, hval⟩
    | some s =>
      by_cases hs : (p.section_ == some s) = true
      · rw [if_pos hs]
        exact ⟨rfl, hval⟩
      · rw [if_neg hs]
        exact h
  · rw [if_neg hacc]
    exact h

/-- The scan invariant extends over a whole partition. -/
theorem fps_fold_inv (pc : Nat) (sec : Option Nat) (textlow : Nat) :
    ∀ (l : List Symbol) (st : Option Symbol × Nat),
    (match st.1 with
     | none => textlow ≤ st.2 + 1
     | some q => st.2 = q.value ∧ textlow ≤ q.value) →
    (match (l.foldl (fps_step pc sec textlow) st).1 with
     | none => textlow ≤ (l.foldl (fps_step pc sec textlow) st).2 + 1
     | some q => (l.foldl (fps_step pc sec textlow) st).2 = q.value
         ∧ textlow ≤ q.value)
  | [], st, h => h
  | p :: rest, st, h =>
    fps_fold_inv pc sec textlow rest (fps_step pc sec textlow st p)
      (fps_step_inv pc sec textlow st p h)

/-- A unit's candidate address never lies below its textlow. -/
theorem psymtabCandidate_ge_textlow (pst : Psymtab) (pc : Nat)
    (sec : Option Nat) : pst.textlow ≤ psymtabCandidate pst pc sec := by
  unfold psymtabCandidate find_pc_sect_psymbol
  have h0 : (match (none : Option Symbol) with
      | none => pst.textlow ≤ (if pst.textlow ≠ 0 then pst.textlow - 1 else 0) + 1
      | some q => (if pst.textlow ≠ 0 then pst.textlow - 1 else 0) = q.value
          ∧ pst.textlow ≤ q.value) := by
    simp only
    by_cases h : pst.textlow = 0 <;> simp [h] <;> omega
  have h1 := fps_fold_inv pc sec pst.textlow pst.globals
    (none, if pst.textlow ≠ 0 then pst.textlow - 1 else 0) h0
  have h2 := fps_fold_inv pc sec pst.textlow pst.statics _ h1
  revert h2
  cases hfin : (pst.statics.foldl (fps_step pc sec pst.textlow)
      (pst.globals.foldl (fps_step pc sec pst.textlow)
        (none, if pst.textlow ≠ 0 then pst.textlow - 1 else 0))).1 with
  | none => intro _; exact Nat.le_refl _
  | some q => intro h2; exact h2.2

/-- The closer-match loop: under the assumption that the minimal
symbol's address bounds every scanned unit's candidate, the loop returns
a unit whose candidate dominates every in-range unit it scanned. -/
theorem closer_loop_spec (sess : Session) (pc : Nat) (sec : Option Nat)
    (v : Nat) :
    ∀ (lst : List (Nat × Psymtab)) (bestPst : Nat) (bestAddr : Nat)
      (psB : Psymtab),
    (∀ p ∈ lst, sess.psymtabs[p.1]? = some p.2) →
    (∀ p ∈ lst, pst_contains p.2 pc → psymtabCandidate p.2 pc sec ≤ v) →
    sess.psymtabs[bestPst]? = some psB →
    bestAddr ≤ v →
    pst_contains psB pc →
    bestAddr ≤ psymtabCandidate psB pc sec →
    ∃ j psJ, closer_loop pc sec v lst bestPst bestAddr = some j
      ∧ sess.psymtabs[j]? = some psJ ∧ pst_contains psJ pc
      ∧ bestAddr ≤ psymtabCandidate psJ pc sec
      ∧ (∀ p ∈ lst, pst_contains p.2 pc →
          psymtabCandidate p.2 pc sec ≤ psymtabCandidate psJ pc sec)
  | [], bestPst, bestAddr, psB, _, _, h3, _, h5, h6 =>
    ⟨bestPst, psB, rfl, h3, h5, h6, by intro p hp; cases hp⟩
  | (j, q) :: rest, bestPst, bestAddr, psB, h1, h2, h3, h4, h5, h6 => by
    rw [closer_loop]
    by_cases hin : pst_contains q pc
    · rw [if_pos (show q.textlow ≤ pc ∧ pc < q.texthigh from hin)]
      cases hfq : find_pc_sect_psymbol q pc sec with
      | some p =>
        dsimp only
        have hcq : psymtabCandidate q pc sec = p.value := by
          unfold psymtabCandidate
          rw [hfq]
        by_cases hexact : p.value = v
        · rw [if_pos hexact]
          refine ⟨j, q, rfl, h1 (j, q) (List.mem_cons_self _ _), hin, ?_, ?_⟩
          · rw [hcq, hexact]; exact h4
          · intro p' hp' hc'
            rw [hcq, hexact]
            rcases List.mem_cons.mp hp' with rfl | hmem
            · rw [hcq, hexact]
            · exact h2 p' (List.mem_cons_of_mem _ hmem) hc'
        · rw [if_neg hexact]
          by_cases hbetter : bestAddr < p.value
          · rw [if_pos hbetter]
            obtain ⟨j', psJ, heq, hg, hc, hb, hall⟩ :=
              closer_loop_spec sess pc sec v rest j p.value q
                (fun p hp => h1 p (List.mem_cons_of_mem _ hp))
                (fun p hp => h2 p (List.mem_cons_of_mem _ hp))
                (h1 (j, q) (List.mem_cons_self _ _))
                (by rw [← hcq]; exact h2 (j, q) (List.mem_cons_self _ _) hin)
                hin (Nat.le_of_eq hcq.symm)
            refine ⟨j', psJ, heq, hg, hc, Nat.le_trans (Nat.le_of_lt hbetter) hb, ?_⟩
            intro p' hp' hc'
            rcases List.mem_cons.mp hp' with rfl | hmem
            · rw [hcq]; exact hb
            · exact hall p' hmem hc'
          · rw [if_neg hbetter]
            obtain ⟨j', psJ, heq, hg, hc, hb, hall⟩ :=
              closer_loop_spec sess pc sec v rest bestPst bestAddr psB
                (fun p hp => h1 p (List.mem_cons_of_mem _ hp))
                (fun p hp => h2 p (List.mem_cons_of_mem _ hp))
                h3 h4 h5 h6
            refine ⟨j', psJ, heq, hg, hc, hb, ?_⟩
            intro p' hp' hc'
            rcases List.mem_cons.mp hp' with rfl | hmem
            · rw [hcq]
              exact Nat.le_trans (Nat.le_of_not_lt hbetter) hb
            · exact hall p' hmem hc'
      | none =>
        dsimp only
        have hcq : psymtabCandidate q pc sec = q.textlow := by
          unfold psymtabCandidate
          rw [hfq]
        by_cases hbetter : bestAddr < q.textlow
        · rw [if_pos hbetter]
          obtain ⟨j', psJ, heq, hg, hc, hb, hall⟩ :=
            closer_loop_spec sess pc sec v rest j q.textlow q
              (fun p hp => h1 p (List.mem_cons_of_mem _ hp))
              (fun p hp => h2 p (List.mem_cons_of_mem _ hp))
              (h1 (j, q) (List.mem_cons_self _ _))
              (by rw [← hcq]; exact h2 (j, q) (List.mem_cons_self _ _) hin)
              hin (Nat.le_of_eq hcq.symm)
          refine ⟨j', psJ, heq, hg, hc, Nat.le_trans (Nat.le_of_lt hbetter) hb, ?_⟩
          intro p' hp' hc'
          rcases List.mem_cons.mp hp' with rfl | hmem
          · rw [hcq]; exact hb
          · exact hall p' hmem hc'
        · rw [if_neg hbetter]
          obtain ⟨j', psJ, heq, hg, hc, hb, hall⟩ :=
            closer_loop_spec sess pc sec v rest bestPst bestAddr psB
              (fun p hp => h1 p (List.mem_cons_of_mem _ hp))
              (fun p hp => h2 p (List.mem_cons_of_mem _ hp))
              h3 h4 h5 h6
          refine ⟨j', psJ, heq, hg, hc, hb, ?_⟩
          intro p' hp' hc'
          rcases List.mem_cons.mp hp' with rfl | hmem
          · rw [hcq]
            exact Nat.le_trans (Nat.le_of_not_lt hbetter) hb
          · exact hall p' hmem hc'
    · rw [if_neg (show ¬(q.textlow ≤ pc ∧ pc < q.texthigh) from hin)]
      obtain ⟨j', psJ, heq, hg, hc, hb, hall⟩ :=
        closer_loop_spec sess pc sec v rest bestPst bestAddr psB
          (fun p hp => h1 p (List.mem_cons_of_mem _ hp))
          (fun p hp => h2 p (List.mem_cons_of_mem _ hp))
          h3 h4 h5 h6
      refine ⟨j', psJ, heq, hg, hc, hb, ?_⟩
      intro p' hp' hc'
      rcases List.mem_cons.mp hp' with rfl | hmem
      · exact absurd hc' hin
      · exact hall p' hmem hc'

/-- The linear psymtab scan skips units whose range misses the
address. -/
theorem fps_scan_skip (sess : Session) (pc : Nat) (sec : Option Nat)
    (msymbol : Option Minsym) :
    ∀ (L1 L2 : List (Nat × Psymtab)),
    (∀ p ∈ L1, ¬ pst_contains p.2 pc) →
    fps_scan sess pc sec msymbol (L1 ++ L2) = fps_scan sess pc sec msymbol L2
  | [], L2, _ => rfl
  | (j, q) :: rest, L2, h => by
    rw [List.cons_append, fps_scan]
    rw [if_neg (show ¬(q.textlow ≤ pc ∧ pc < q.texthigh)
      from h (j, q) (List.mem_cons_self _ _))]
    exact fps_scan_skip sess pc sec msymbol rest L2
      fun p hp => h p (List.mem_cons_of_mem _ hp)

/-- C5, counterexample: with the claim's own two-unit example — ranges
[0,100) and [50,150), function symbols at 10 and 60, query 70 — but a
module that is not flagged as reordered and no section, the lookup
returns the first unit whose range matches (the one whose best symbol is
at 10), not the unit containing the symbol at 60. -/
theorem C5_counterexample :
    find_pc_sect_psymtab
      (Session.mk false none
        [Psymtab.mk "a.c" 0 100
          [Symbol.mk "f" "f" Language.c Domain.varDomain SymClass.locBlock false 10 none false]
          [] false none [],
         Psymtab.mk "b.c" 50 150
          [Symbol.mk "g" "g" Language.c Domain.varDomain SymClass.locBlock false 60 none false]
          [] false none []]
        [] [] 0)
      (fun _ => none) 70 none = some 0
    ∧ psymtabCandidate
        (Psymtab.mk "a.c" 0 100
          [Symbol.mk "f" "f" Language.c Domain.varDomain SymClass.locBlock false 10 none false]
          [] false none []) 70 none = 10
    ∧ psymtabCandidate
        (Psymtab.mk "b.c" 50 150
          [Symbol.mk "g" "g" Language.c Domain.varDomain SymClass.locBlock false 60 none false]
          [] false none []) 70 none = 60 :=
  ⟨rfl, rfl, rfl⟩

/-- C5, amended: with no addrmap, a module flagged as having reordered
functions, a minimal symbol at the queried address, and every scanned
unit's candidate bounded by that minimal symbol's address (the code's
stated assumption that every partial symbol has a corresponding minimal
symbol), the lookup returns a unit whose range contains the address and
whose candidate — the contained symbol closest to, but not exceeding,
the address (or its textlow if none) — dominates every other matching
unit's candidate. -/
theorem C5_closest_not_exceeding (sess : Session)
    (msymAt : Nat → Option Minsym) (pc : Nat) (sec : Option Nat)
    (msym : Minsym) (L1 L2 : List (Nat × Psymtab)) (i0 : Nat) (ps0 : Psymtab)
    (haddr : sess.addrmap = none)
    (hreord : sess.reordered = true)
    (hmsym : msymAt pc = some msym)
    (hnd : msymIsData (msymAt pc) = false)
    (hsplit : sess.psymtabs.enum = L1 ++ (i0, ps0) :: L2)
    (hbefore : ∀ p ∈ L1, ¬ pst_contains p.2 pc)
    (hc0 : pst_contains ps0 pc)
    (hv : ∀ p ∈ (i0, ps0) :: L2, pst_contains p.2 pc →
      psymtabCandidate p.2 pc sec ≤ msym.value) :
    ∃ j psJ, find_pc_sect_psymtab sess msymAt pc sec = some j
      ∧ sess.psymtabs[j]? = some psJ ∧ pst_contains psJ pc
      ∧ ∀ p ∈ sess.psymtabs.enum, pst_contains p.2 pc →
          psymtabCandidate p.2 pc sec ≤ psymtabCandidate psJ pc sec := by
  have hmem_getElem : ∀ p ∈ (i0, ps0) :: L2, sess.psymtabs[p.1]? = some p.2 := by
    intro p hp
    have : p ∈ sess.psymtabs.enum := by
      rw [hsplit]
      exact List.mem_append_right _ hp
    have := List.mem_enum_iff_getElem?.mp this
    simpa using this
  have hget : sess.psymtabs[i0]? = some ps0 :=
    hmem_getElem (i0, ps0) (List.mem_cons_self _ _)
  have hi0 : i0 = L1.length := by
    have h1 : sess.psymtabs.enum[L1.length]? = some (i0, ps0) := by
      rw [hsplit, List.getElem?_append_right (Nat.le_refl _)]
      simp
    rw [List.getElem?_enum] at h1
    cases h2 : sess.psymtabs[L1.length]? with
    | none => rw [h2] at h1; simp at h1
    | some a =>
      rw [h2] at h1
      simp at h1
      exact h1.1.symm
  have hdrop : sess.psymtabs.enum.drop i0 = (i0, ps0) :: L2 := by
    rw [hsplit, hi0, List.drop_left]
  have hcloser : find_pc_sect_psymtab_closer sess pc sec i0 (some msym)
      = closer_loop pc sec msym.value ((i0, ps0) :: L2) i0 ps0.textlow := by
    unfold find_pc_sect_psymtab_closer
    rw [hget]
    dsimp only
    rw [if_neg (by rw [hreord]; simp)]
    rw [hdrop]
  obtain ⟨j, psJ, heq, hg, hc, _, hall⟩ :=
    closer_loop_spec sess pc sec msym.value ((i0, ps0) :: L2) i0 ps0.textlow ps0
      hmem_getElem hv hget
      (Nat.le_trans (psymtabCandidate_ge_textlow ps0 pc sec)
        (hv (i0, ps0) (List.mem_cons_self _ _) hc0))
      hc0 (psymtabCandidate_ge_textlow ps0 pc sec)
  refine ⟨j, psJ, ?_, hg, hc, ?_⟩
  · have hnd' : msymIsData (some msym) = false := by rw [← hmsym]; exact hnd
    unfold find_pc_sect_psymtab
    dsimp only
    rw [hmsym, hnd']
    rw [if_neg Bool.false_ne_true]
    rw [haddr]
    dsimp only
    rw [hsplit, fps_scan_skip sess pc sec (some msym) L1 _ hbefore]
    rw [fps_scan]
    rw [if_pos (show ps0.textlow ≤ pc ∧ pc < ps0.texthigh from hc0)]
    rw [hcloser, heq]
  · intro p hp hcp
    rw [hsplit] at hp
    rcases List.mem_append.mp hp with hL1 | hrest
    · exact absurd hcp (hbefore p hL1)
    · exact hall p hrest hcp

/-- Witness for C5: the claim's example under the reordered flag with a
minimal symbol at 60 — the returned unit dominates every matching
unit's candidate. -/
theorem C5_closest_not_exceeding_witness :
    ∃ j psJ, find_pc_sect_psymtab (Session.mk true none [(Psymtab.mk "a.c" 0 100 [Symbol.mk "f" "f" Language.c Domain.varDomain SymClass.locBlock false 10 none false] [] false none []), (Psymtab.mk "b.c" 50 150 [Symbol.mk "g" "g" Language.c Domain.varDomain SymClass.locBlock false 60 none false] [] false none [])] [] [] 0) (fun _ => some (Minsym.mk "g" "g" MinsymType.mstText 60)) 70 none = some j
      ∧ (Session.mk true none [(Psymtab.mk "a.c" 0 100 [Symbol.mk "f" "f" Language.c Domain.varDomain SymClass.locBlock false 10 none false] [] false none []), (Psymtab.mk "b.c" 50 150 [Symbol.mk "g" "g" Language.c Domain.varDomain SymClass.locBlock false 60 none false] [] false none [])] [] [] 0).psymtabs[j]? = some psJ
      ∧ pst_contains psJ 70
      ∧ ∀ p ∈ (Session.mk true none [(Psymtab.mk "a.c" 0 100 [Symbol.mk "f" "f" Language.c Domain.varDomain SymClass.locBlock false 10 none false] [] false none []), (Psymtab.mk "b.c" 50 150 [Symbol.mk "g" "g" Language.c Domain.varDomain SymClass.locBlock false 60 none false] [] false none [])] [] [] 0).psymtabs.enum,
          pst_contains p.2 70 →
          psymtabCandidate p.2 70 none ≤ psymtabCandidate psJ 70 none :=
  C5_closest_not_exceeding (Session.mk true none [(Psymtab.mk "a.c" 0 100 [Symbol.mk "f" "f" Language.c Domain.varDomain SymClass.locBlock false 10 none false] [] false none []), (Psymtab.mk "b.c" 50 150 [Symbol.mk "g" "g" Language.c Domain.varDomain SymClass.locBlock false 60 none false] [] false none [])] [] [] 0) (fun _ => some (Minsym.mk "g" "g" MinsymType.mstText 60)) 70 none
    (Minsym.mk "g" "g" MinsymType.mstText 60) [] [(1, (Psymtab.mk "b.c" 50 150 [Symbol.mk "g" "g" Language.c Domain.varDomain SymClass.locBlock false 60 none false] [] false none []))] 0 (Psymtab.mk "a.c" 0 100 [Symbol.mk "f" "f" Language.c Domain.varDomain SymClass.locBlock false 10 none false] [] false none [])
    rfl rfl rfl rfl rfl (by simp) (by decide) (by decide)

/-- The latest-entry-at-or-below-PC really starts at or below PC. -/
theorem linePrev_pc_le (l : List LineEntry) (pc : Nat) (pv : LineEntry)
    (h : linePrev l pc = some pv) : pv.pc ≤ pc := by
  unfold linePrev firstAbove at h
  rw [List.getLast?_eq_getElem?] at h
  have hlen : (l.take (l.findIdx fun it => decide (pc < it.pc))).length - 1
      < l.findIdx fun it => decide (pc < it.pc) := by
    have hle : (l.take (l.findIdx fun it => decide (pc < it.pc))).length
        ≤ l.findIdx fun it => decide (pc < it.pc) := by
      simp [List.length_take]
    have hne : (l.take (l.findIdx fun it => decide (pc < it.pc))).length ≠ 0 := by
      intro h0
      rw [List.getElem?_eq_none (by omega)] at h
      exact Option.noConfusion h
    omega
  rw [List.getElem?_take_of_lt hlen] at h
  have hi : (l.take (l.findIdx fun it => decide (pc < it.pc))).length - 1
      < l.length := Nat.lt_of_lt_of_le hlen (List.findIdx_le_length _)
  have := List.not_of_lt_findIdx hlen
  rw [List.getElem?_eq_getElem hi] at h
  injection h with h
  rw [h] at this
  simpa using this

/-- The entry at the break index lies strictly above PC. -/
theorem firstAbove_entry_gt (l : List LineEntry) (pc : Nat) (it : LineEntry)
    (h : l[firstAbove l pc]? = some it) : pc < it.pc := by
  unfold firstAbove at h
  have hlt : (l.findIdx fun it => decide (pc < it.pc)) < l.length := by
    cases Nat.lt_or_ge (l.findIdx fun it => decide (pc < it.pc)) l.length with
    | inl h' => exact h'
    | inr h' =>
      rw [List.getElem?_eq_none h'] at h
      exact Option.noConfusion h
  have := List.findIdx_getElem (w := hlt)
  rw [List.getElem?_eq_getElem hlt] at h
  injection h with h
  rw [h] at this
  simpa using this

/-- One scan step preserves the best/alt invariant. -/
theorem fpsl_step_inv (pc : Nat) (st : FpslState) (arg : Nat × Symtab)
    (h : FpslInv pc st) : FpslInv pc (fpsl_step pc st arg) := by
  obtain ⟨idx, s⟩ := arg
  obtain ⟨h1, h2, h3, h4⟩ := h
  unfold fpsl_step
  dsimp only
  cases hlt : s.linetable with
  | none => exact ⟨h1, h2, h3, h4⟩
  | some l =>
    dsimp only
    by_cases hlen : l.length = 0
    · rw [if_pos hlen]
      exact ⟨h1, h2, h3, h4⟩
    · rw [if_neg hlen]
      have halt : ∀ a, (match l.head? with
          | some item0 =>
            if pc < item0.pc && (match st.alt with
                                 | none => true
                                 | some a => decide (item0.pc < a.pc)) then
              some item0
            else st.alt
          | none => st.alt) = some a → pc < a.pc := by
        intro a ha
        cases hh : l.head? with
        | none => rw [hh] at ha; exact h3 a ha
        | some item0 =>
          rw [hh] at ha
          dsimp only at ha
          by_cases hcond : (pc < item0.pc && (match st.alt with
              | none => true
              | some a => decide (item0.pc < a.pc))) = true
          · rw [if_pos hcond] at ha
            injection ha with ha
            rw [← ha]
            have := (Bool.and_eq_true_iff.mp hcond).1
            simpa using this
          · rw [if_neg hcond] at ha
            exact h3 a ha
      cases hprev : linePrev l pc with
      | none =>
        dsimp only
        cases hb : st.best with
        | none =>
          dsimp only
          rw [hb] at h4
          exact ⟨fun b hb' => Option.noConfusion hb', h2, halt, h4⟩
        | some b =>
          rw [hb] at h4
          cases hk : l[firstAbove l pc]? with
          | none =>
            dsimp only
            exact ⟨fun b' hb' => h1 b' (by rw [hb]; exact hb'), h2, halt, h4⟩
          | some item =>
            dsimp only
            by_cases hcond : b.pc < item.pc ∧ (st.bestEnd = 0 ∨ item.pc < st.bestEnd)
            · rw [if_pos hcond]
              exact ⟨fun b' hb' => h1 b' (by rw [hb]; exact hb'),
                Or.inr (firstAbove_entry_gt l pc item hk), halt, h4⟩
            · rw [if_neg hcond]
              exact ⟨fun b' hb' => h1 b' (by rw [hb]; exact hb'), h2, halt, h4⟩
      | some pv =>
        dsimp only
        by_cases hcond : (pv.line != 0 && (match st.best with
            | none => true
            | some b => decide (b.pc < pv.pc))) = true
        · rw [if_pos hcond]
          dsimp only
          have hpvline : pv.line ≠ 0 := by
            have := (Bool.and_eq_true_iff.mp hcond).1
            simpa using this
          have hpvle : pv.pc ≤ pc := linePrev_pc_le l pc pv hprev
          have hbe : (if st.bestEnd ≤ pv.pc then 0 else st.bestEnd) = 0
              ∨ pc < (if st.bestEnd ≤ pv.pc then 0 else st.bestEnd) := by
            by_cases hz : st.bestEnd ≤ pv.pc
            · rw [if_pos hz]; exact Or.inl rfl
            · rw [if_neg hz]
              rcases h2 with h2 | h2
              · exact absurd (h2 ▸ Nat.zero_le pv.pc) hz
              · exact Or.inr h2
          cases hk : l[firstAbove l pc]? with
          | none =>
            dsimp only
            exact ⟨fun b' hb' => by
                injection hb' with hb'
                rw [← hb']
                exact ⟨hpvle, hpvline⟩,
              hbe, halt, by simp⟩
          | some item =>
            dsimp only
            by_cases hc2 : pv.pc < item.pc ∧
                ((if st.bestEnd ≤ pv.pc then 0 else st.bestEnd) = 0
                 ∨ item.pc < (if st.bestEnd ≤ pv.pc then 0 else st.bestEnd))
            · rw [if_pos hc2]
              exact ⟨fun b' hb' => by
                  injection hb' with hb'
                  rw [← hb']
                  exact ⟨hpvle, hpvline⟩,
                Or.inr (firstAbove_entry_gt l pc item hk), halt, by simp⟩
            · rw [if_neg hc2]
              exact ⟨fun b' hb' => by
                  injection hb' with hb'
                  rw [← hb']
                  exact ⟨hpvle, hpvline⟩,
                hbe, halt, by simp⟩
        · rw [if_neg hcond]
          dsimp only
          cases hb : st.best with
          | none =>
            dsimp only
            rw [hb] at h4
            exact ⟨fun b' hb' => Option.noConfusion hb', h2, halt, h4⟩
          | some b =>
            rw [hb] at h4
            cases hk : l[firstAbove l pc]? with
            | none =>
              dsimp only
              exact ⟨fun b' hb' => h1 b' (by rw [hb]; exact hb'), h2, halt, h4⟩
            | some item =>
              dsimp only
              by_cases hc2 : b.pc < item.pc ∧ (st.bestEnd = 0 ∨ item.pc < st.bestEnd)
              · rw [if_pos hc2]
                exact ⟨fun b' hb' => h1 b' (by rw [hb]; exact hb'),
                  Or.inr (firstAbove_entry_gt l pc item hk), halt, h4⟩
              · rw [if_neg hc2]
                exact ⟨fun b' hb' => h1 b' (by rw [hb]; exact hb'), h2, halt, h4⟩

/-- The scan invariant holds after processing any run of tables. -/
theorem fpsl_fold_inv (pc : Nat) :
    ∀ (L : List (Nat × Symtab)) (st : FpslState), FpslInv pc st →
      FpslInv pc (L.foldl (fpsl_step pc) st)
  | [], _, h => h
  | x :: rest, st, h =>
    fpsl_fold_inv pc rest (fpsl_step pc st x) (fpsl_step_inv pc st x h)

/-- A table with no source attribution at PC leaves an empty best
unchanged. -/
theorem fpsl_step_none (pc : Nat) (st : FpslState) (idx : Nat) (s : Symtab)
    (hb : st.best = none) (hbs : st.bestSymtab = none)
    (hno : ∀ l, s.linetable = some l → ∀ pv, linePrev l pc = some pv →
      pv.line = 0) :
    (fpsl_step pc st (idx, s)).best = none
    ∧ (fpsl_step pc st (idx, s)).bestSymtab = none := by
  unfold fpsl_step
  dsimp only
  cases hlt : s.linetable with
  | none => exact ⟨hb, hbs⟩
  | some l =>
    dsimp only
    by_cases hlen : l.length = 0
    · rw [if_pos hlen]
      exact ⟨hb, hbs⟩
    · rw [if_neg hlen]
      cases hprev : linePrev l pc with
      | none => exact ⟨hb, hbs⟩
      | some pv =>
        dsimp only
        have : pv.line = 0 := hno l hlt pv hprev
        rw [if_neg (by simp [this])]
        dsimp only
        exact ⟨hb, hbs⟩

/-- A non-empty best is never discarded by a scan step. -/
theorem fpsl_step_keeps (pc : Nat) (st : FpslState) (arg : Nat × Symtab)
    (h : st.best.isSome) : (fpsl_step pc st arg).best.isSome := by
  obtain ⟨idx, s⟩ := arg
  unfold fpsl_step
  dsimp only
  cases hlt : s.linetable with
  | none => exact h
  | some l =>
    dsimp only
    by_cases hlen : l.length = 0
    · rw [if_pos hlen]; exact h
    · rw [if_neg hlen]
      cases hprev : linePrev l pc with
      | none => exact h
      | some pv =>
        dsimp only
        by_cases hcond : (pv.line != 0 && (match st.best with
            | none => true
            | some b => decide (b.pc < pv.pc))) = true
        · rw [if_pos hcond]; rfl
        · rw [if_neg hcond]; exact h

/-- A table with source attribution at PC makes the best non-empty. -/
theorem fpsl_step_attr (pc : Nat) (st : FpslState) (idx : Nat) (s : Symtab)
    (l : List LineEntry) (pv : LineEntry) (hlt : s.linetable = some l)
    (hpv : linePrev l pc = some pv) (hline : pv.line ≠ 0) :
    (fpsl_step pc st (idx, s)).best.isSome := by
  have hlen : l.length ≠ 0 := by
    intro h0
    rw [List.length_eq_zero] at h0
    rw [h0] at hpv
    simp [linePrev] at hpv
  unfold fpsl_step
  dsimp only
  rw [hlt]
  dsimp only
  rw [if_neg hlen, hpv]
  dsimp only
  cases hb : st.best with
  | none =>
    rw [if_pos (by simp [hline, hb])]
    rfl
  | some b =>
    dsimp only
    by_cases hcond : (pv.line != 0 && decide (b.pc < pv.pc)) = true
    · rw [if_pos hcond]
      rfl
    · rw [if_neg hcond]
      rfl

/-- A non-empty best survives the rest of the scan. -/
theorem fpsl_fold_keeps (pc : Nat) :
    ∀ (L : List (Nat × Symtab)) (st : FpslState), st.best.isSome →
      (L.foldl (fpsl_step pc) st).best.isSome
  | [], _, h => h
  | x :: rest, st, h =>
    fpsl_fold_keeps pc rest (fpsl_step pc st x) (fpsl_step_keeps pc st x h)

/-- If some scanned table attributes a line to PC, the final best is
non-empty. -/
theorem fpsl_fold_attr (pc : Nat) :
    ∀ (L : List (Nat × Symtab)) (st : FpslState),
    hasLineAttribution (L.map Prod.snd) pc →
      (L.foldl (fpsl_step pc) st).best.isSome
  | [], _, h => by
    obtain ⟨s, hs, _⟩ := h
    simp at hs
  | (idx, s) :: rest, st, h => by
    obtain ⟨s', hs', l, hlt, pv, hpv, hline⟩ := h
    rcases List.mem_cons.mp hs' with heq | hmem
    · rw [List.foldl_cons]
      refine fpsl_fold_keeps pc rest _ ?_
      exact fpsl_step_attr pc st idx s l pv (by rw [show s = s' by simpa using heq.symm]; exact hlt) hpv hline
    · rw [List.foldl_cons]
      exact fpsl_fold_attr pc rest _ ⟨s', hmem, l, hlt, pv, hpv, hline⟩

/-- If no scanned table attributes a line to PC, the best stays empty. -/
theorem fpsl_fold_none (pc : Nat) :
    ∀ (L : List (Nat × Symtab)) (st : FpslState),
    st.best = none → st.bestSymtab = none →
    (¬ hasLineAttribution (L.map Prod.snd) pc) →
      (L.foldl (fpsl_step pc) st).best = none
      ∧ (L.foldl (fpsl_step pc) st).bestSymtab = none
  | [], _, hb, hbs, _ => ⟨hb, hbs⟩
  | (idx, s) :: rest, st, hb, hbs, hno => by
    rw [List.foldl_cons]
    have hs : ∀ l, s.linetable = some l → ∀ pv, linePrev l pc = some pv →
        pv.line = 0 := by
      intro l hlt pv hpv
      by_contra hnz
      exact hno ⟨s, by simp, l, hlt, pv, hpv, hnz⟩
    obtain ⟨hb', hbs'⟩ := fpsl_step_none pc st idx s hb hbs hs
    refine fpsl_fold_none pc rest _ hb' hbs' ?_
    intro ⟨s', hs', rest'⟩
    exact hno ⟨s', by simp [hs'], rest'⟩

/-- Away from solib stubs, find_pc_sect_line is its post-preamble
body. -/
theorem find_pc_sect_line_no_stub (fuel : Nat) (sess : Session)
    (msymAt : Nat → Option Minsym) (msymText : String → Option Minsym)
    (pc : Nat) (sec : Option Nat)
    (hmt : ∀ m, msymAt pc = some m → m.mtype ≠ MinsymType.mstSolibTrampoline) :
    find_pc_sect_line fuel sess msymAt msymText pc sec false
      = fpsl_core sess msymAt pc sec false := by
  cases fuel with
  | zero => rfl
  | succ f =>
    show (match msymAt pc with
      | none => fpsl_core sess msymAt pc sec false
      | some m =>
        if m.mtype = MinsymType.mstSolibTrampoline then
          match msymText m.linkage with
          | none => fpsl_core sess msymAt pc sec false
          | some mf =>
            if mf.value = m.value then fpsl_core sess msymAt pc sec false
            else find_pc_sect_line f sess msymAt msymText mf.value none false
        else fpsl_core sess msymAt pc sec false)
      = fpsl_core sess msymAt pc sec false
    cases hm : msymAt pc with
    | none => rfl
    | some m =>
      dsimp only
      rw [if_neg (hmt m hm)]

/-- C2, counterexample: a unit whose global block spans [0,100) with
one line-table entry (line 5 at address 50) — line information exists
for the unit — yet the query for address 10 (inside the range, below
every entry) yields line 0 with the address echoed back instead of a
containing range. -/
theorem C2_counterexample :
    (find_pc_sect_line 1
      (Session.mk false none []
        [Symtab.mk "f.c" 0
          (Blockvector.mk (Blk.mk 0 100 [] false none)
            (Blk.mk 0 100 [] false (some (Blk.mk 0 100 [] false none))))
          (some [LineEntry.mk 5 50]) true]
        [] 0)
      (fun _ => none) (fun _ => none) 10 none false).2
      = SymtabAndLine.mk none 0 10 0
    ∧ (0 ≤ 10 ∧ 10 < 100)
    ∧ (List.any [LineEntry.mk 5 50] fun e => e.line ≠ 0) = true :=
  ⟨rfl, ⟨Nat.zero_le _, by omega⟩, rfl⟩

/-- C2, amended: for an address inside the located unit's range (with no
stub redirect at the address), the result carries a line range
[start, end) containing the address precisely when some table of the
unit attributes a source line to it — its scan finds a latest entry at
or below the address with a nonzero line number; otherwise — also when
line entries exist but none with a nonzero line starts at or below the
address — the line number is 0 and the address is echoed back. -/
theorem C2_line_range (sess : Session) (msymAt : Nat → Option Minsym)
    (msymText : String → Option Minsym) (pc : Nat) (fuel : Nat)
    (k0 : Nat) (st0 : Symtab)
    (hmt : ∀ m, msymAt pc = some m → m.mtype ≠ MinsymType.mstSolibTrampoline)
    (hk : find_pc_sect_symtab sess msymAt pc none = (sess, some k0))
    (hst : sess.symtabs[k0]? = some st0)
    (hhi : pc < st0.bv.global.endAddr) :
    (hasLineAttribution
        (((sess.symtabs.enum.drop k0).takeWhile fun p =>
          p.2.bvId = st0.bvId).map Prod.snd) pc →
      (find_pc_sect_line fuel sess msymAt msymText pc none false).2.line ≠ 0
      ∧ (find_pc_sect_line fuel sess msymAt msymText pc none false).2.pc ≤ pc
      ∧ pc < (find_pc_sect_line fuel sess msymAt msymText pc none false).2.endAddr)
    ∧ (¬ hasLineAttribution
        (((sess.symtabs.enum.drop k0).takeWhile fun p =>
          p.2.bvId = st0.bvId).map Prod.snd) pc →
      (find_pc_sect_line fuel sess msymAt msymText pc none false).2.line = 0
      ∧ (find_pc_sect_line fuel sess msymAt msymText pc none false).2.pc = pc) := by
  rw [find_pc_sect_line_no_stub fuel sess msymAt msymText pc none hmt]
  have hcore : fpsl_core sess msymAt pc none false
      = (fun st =>
          match st.bestSymtab, st.best with
          | some bs, some b =>
            if b.line = 0 then
              (sess, { symtab := none, line := 0, pc := pc, endAddr := 0 })
            else
              (sess,
                { symtab := some bs, line := b.line, pc := b.pc,
                  endAddr :=
                    if st.bestEnd != 0 && (match st.alt with
                        | none => true
                        | some a => decide (st.bestEnd < a.pc)) then st.bestEnd
                    else
                      match st.alt with
                      | some a => a.pc
                      | none => st0.bv.global.endAddr })
          | _, _ => (sess, { symtab := none, line := 0, pc := pc, endAddr := 0 }))
        (((sess.symtabs.enum.drop k0).takeWhile fun p =>
            p.2.bvId = st0.bvId).foldl (fpsl_step pc)
          { best := none, bestSymtab := none, bestEnd := 0, alt := none }) := by
    unfold fpsl_core
    rw [hk]
    dsimp only
    rw [hst]
  rw [hcore]
  dsimp only
  have hinv := fpsl_fold_inv pc
    ((sess.symtabs.enum.drop k0).takeWhile fun p => p.2.bvId = st0.bvId)
    { best := none, bestSymtab := none, bestEnd := 0, alt := none }
    ⟨fun b hb => Option.noConfusion hb, Or.inl rfl,
     fun a ha => Option.noConfusion ha, by simp⟩
  constructor
  · intro hattr
    have hsome := fpsl_fold_attr pc
      ((sess.symtabs.enum.drop k0).takeWhile fun p => p.2.bvId = st0.bvId)
      { best := none, bestSymtab := none, bestEnd := 0, alt := none } hattr
    set stf := ((sess.symtabs.enum.drop k0).takeWhile fun p =>
      p.2.bvId = st0.bvId).foldl (fpsl_step pc)
      { best := none, bestSymtab := none, bestEnd := 0, alt := none } with hstf
    obtain ⟨b, hb⟩ := Option.isSome_iff_exists.mp hsome
    obtain ⟨h1, h2, h3, h4⟩ := hinv
    obtain ⟨bs, hbs⟩ : ∃ bs, stf.bestSymtab = some bs := by
      cases hx : stf.bestSymtab with
      | none => rw [h4.mpr hx] at hb; exact Option.noConfusion hb
      | some bs => exact ⟨bs, rfl⟩
    obtain ⟨hble, hbline⟩ := h1 b hb
    rw [hbs, hb]
    dsimp only
    rw [if_neg hbline]
    refine ⟨hbline, hble, ?_⟩
    by_cases hc : (stf.bestEnd != 0 && (match stf.alt with
        | none => true
        | some a => decide (stf.bestEnd < a.pc))) = true
    · rw [if_pos hc]
      have hne : stf.bestEnd ≠ 0 := by
        have := (Bool.and_eq_true_iff.mp hc).1
        simpa using this
      rcases h2 with h2 | h2
      · exact absurd h2 hne
      · exact h2
    · rw [if_neg hc]
      cases ha : stf.alt with
      | some a => exact h3 a ha
      | none => exact hhi
  · intro hnone
    obtain ⟨hb, hbs⟩ := fpsl_fold_none pc
      ((sess.symtabs.enum.drop k0).takeWhile fun p => p.2.bvId = st0.bvId)
      { best := none, bestSymtab := none, bestEnd := 0, alt := none }
      rfl rfl hnone
    rw [hb, hbs]
    exact ⟨rfl, rfl⟩

/-- C2 witness: a unit over [0,100) with line 5 at address 50; the query
for address 60 is attributed line 5 with a range containing 60. -/
theorem C2_line_range_witness :
    (find_pc_sect_line 1
      (Session.mk false none []
        [Symtab.mk "f.c" 0
          (Blockvector.mk (Blk.mk 0 100 [] false none)
            (Blk.mk 0 100 [] false (some (Blk.mk 0 100 [] false none))))
          (some [LineEntry.mk 5 50]) true]
        [] 0)
      (fun _ => none) (fun _ => none) 60 none false).2.line ≠ 0
    ∧ (find_pc_sect_line 1
      (Session.mk false none []
        [Symtab.mk "f.c" 0
          (Blockvector.mk (Blk.mk 0 100 [] false none)
            (Blk.mk 0 100 [] false (some (Blk.mk 0 100 [] false none))))
          (some [LineEntry.mk 5 50]) true]
        [] 0)
      (fun _ => none) (fun _ => none) 60 none false).2.pc ≤ 60
    ∧ 60 < (find_pc_sect_line 1
      (Session.mk false none []
        [Symtab.mk "f.c" 0
          (Blockvector.mk (Blk.mk 0 100 [] false none)
            (Blk.mk 0 100 [] false (some (Blk.mk 0 100 [] false none))))
          (some [LineEntry.mk 5 50]) true]
        [] 0)
      (fun _ => none) (fun _ => none) 60 none false).2.endAddr :=
  (C2_line_range
    (Session.mk false none []
      [Symtab.mk "f.c" 0
        (Blockvector.mk (Blk.mk 0 100 [] false none)
          (Blk.mk 0 100 [] false (some (Blk.mk 0 100 [] false none))))
        (some [LineEntry.mk 5 50]) true]
      [] 0)
    (fun _ => none) (fun _ => none) 60 1 0
    (Symtab.mk "f.c" 0
      (Blockvector.mk (Blk.mk 0 100 [] false none)
        (Blk.mk 0 100 [] false (some (Blk.mk 0 100 [] false none))))
      (some [LineEntry.mk 5 50]) true)
    (fun m hm => Option.noConfusion hm) rfl rfl (by decide)).1
    ⟨Symtab.mk "f.c" 0
      (Blockvector.mk (Blk.mk 0 100 [] false none)
        (Blk.mk 0 100 [] false (some (Blk.mk 0 100 [] false none))))
      (some [LineEntry.mk 5 50]) true,
     List.mem_singleton.mpr rfl, [LineEntry.mk 5 50], rfl,
     LineEntry.mk 5 50, rfl, by decide⟩

/-- Invariant and bounds of find_line_common's superseding-line fold:
a recorded best points at a real entry whose line supersedes LINENO, the
final best is a lower bound on every superseding entry scanned, and a
recorded best is never worsened. -/
theorem flc_fold_spec (lineno : Nat) (items : List LineEntry) :
    ∀ (L : List (Nat × LineEntry)) (st : Option Nat × Nat),
    (∀ p ∈ L, items.get? p.1 = some p.2) →
    ((st.1 = none ∧ st.2 = 0) ∨
      (∃ i e, st.1 = some i ∧ items.get? i = some e ∧ e.line = st.2
        ∧ lineno < st.2)) →
    (((L.foldl (flc_step lineno) st).1 = none
        ∧ (L.foldl (flc_step lineno) st).2 = 0) ∨
      (∃ i e, (L.foldl (flc_step lineno) st).1 = some i
        ∧ items.get? i = some e ∧ e.line = (L.foldl (flc_step lineno) st).2
        ∧ lineno < (L.foldl (flc_step lineno) st).2))
    ∧ (∀ p ∈ L, lineno < p.2.line →
        (L.foldl (flc_step lineno) st).2 ≠ 0
        ∧ (L.foldl (flc_step lineno) st).2 ≤ p.2.line)
    ∧ (st.2 ≠ 0 →
        (L.foldl (flc_step lineno) st).2 ≠ 0
        ∧ (L.foldl (flc_step lineno) st).2 ≤ st.2)
  | [], st, _, hInv => ⟨hInv, by simp, fun h => ⟨h, le_refl _⟩⟩
  | q :: L, st, hL, hInv => by
    rw [List.foldl_cons]
    have hq := hL q (List.mem_cons_self q L)
    have hL' : ∀ p ∈ L, items.get? p.1 = some p.2 :=
      fun p hp => hL p (List.mem_cons_of_mem q hp)
    by_cases hc : lineno < q.2.line ∧ (st.2 = 0 ∨ q.2.line < st.2)
    · have hstep : flc_step lineno st q = (some q.1, q.2.line) := by
        unfold flc_step
        rw [if_pos hc]
      rw [hstep]
      have hInv' : (((some q.1, q.2.line) : Option Nat × Nat).1 = none
            ∧ ((some q.1, q.2.line) : Option Nat × Nat).2 = 0) ∨
          (∃ i e, ((some q.1, q.2.line) : Option Nat × Nat).1 = some i
            ∧ items.get? i = some e
            ∧ e.line = ((some q.1, q.2.line) : Option Nat × Nat).2
            ∧ lineno < ((some q.1, q.2.line) : Option Nat × Nat).2) :=
        Or.inr ⟨q.1, q.2, rfl, hq, rfl, hc.1⟩
      obtain ⟨ih1, ih2, ih3⟩ :=
        flc_fold_spec lineno items L (some q.1, q.2.line) hL' hInv'
      refine ⟨ih1, ?_, ?_⟩
      · intro p hp habove
        rcases List.mem_cons.mp hp with heq | hp'
        · rw [heq] at habove ⊢
          have hne : q.2.line ≠ 0 := by omega
          exact ⟨(ih3 hne).1, (ih3 hne).2⟩
        · exact ih2 p hp' habove
      · intro hne0
        have hlt : q.2.line < st.2 := by
          rcases hc.2 with h | h
          · exact absurd h hne0
          · exact h
        have hne : q.2.line ≠ 0 := by omega
        exact ⟨(ih3 hne).1, le_trans (ih3 hne).2 (le_of_lt hlt)⟩
    · have hstep : flc_step lineno st q = st := by
        unfold flc_step
        rw [if_neg hc]
      rw [hstep]
      obtain ⟨ih1, ih2, ih3⟩ := flc_fold_spec lineno items L st hL' hInv
      refine ⟨ih1, ?_, ih3⟩
      intro p hp habove
      rcases List.mem_cons.mp hp with heq | hp'
      · rw [heq] at habove ⊢
        have h1 : ¬(st.2 = 0 ∨ q.2.line < st.2) := fun h => hc ⟨habove, h⟩
        push_neg at h1
        exact ⟨(ih3 h1.1).1, le_trans (ih3 h1.1).2 h1.2⟩
      · exact ih2 p hp' habove

/-- An exact entry makes find_line_common return the first exact index
with the exact flag set. -/
theorem flc_exact (lineno : Nat) (hl0 : lineno ≠ 0) (items : List LineEntry)
    (hex : ∃ e ∈ items, e.line = lineno) :
    ∃ i e, find_line_common (some items) lineno = (some i, true)
      ∧ items.get? i = some e ∧ e.line = lineno := by
  have hfind : items.findIdx? (fun it => it.line = lineno)
      = some (items.findIdx (fun it => it.line = lineno)) := by
    apply List.findIdx?_eq_some_of_exists
    obtain ⟨e, he, hl⟩ := hex
    exact ⟨e, he, by simp [hl]⟩
  obtain ⟨hlt, hp, _⟩ := List.findIdx?_eq_some_iff_getElem.mp hfind
  refine ⟨items.findIdx (fun it => it.line = lineno),
    items[items.findIdx (fun it => it.line = lineno)], ?_, ?_, ?_⟩
  · unfold find_line_common
    rw [if_neg hl0]
    dsimp only
    rw [hfind]
  · rw [List.get?_eq_getElem?]
    exact List.getElem?_eq_getElem hlt
  · simpa using hp

/-- Without an exact entry the exact flag comes back clear. -/
theorem flc_no_exact (lineno : Nat) (l : Option (List LineEntry))
    (hno : ∀ e ∈ l.getD [], e.line ≠ lineno) :
    (find_line_common l lineno).2 = false := by
  unfold find_line_common
  by_cases h0 : lineno = 0
  · rw [if_pos h0]
  · rw [if_neg h0]
    cases l with
    | none => rfl
    | some items =>
      dsimp only
      have hf : items.findIdx? (fun it => it.line = lineno) = none := by
        rw [List.findIdx?_eq_none_iff]
        intro e he
        exact decide_eq_false (hno e he)
      rw [hf]

/-- A non-exact hit of find_line_common points at a real entry holding
the table's smallest line number above LINENO. -/
theorem flc_some_false (lineno : Nat) (hl0 : lineno ≠ 0)
    (items : List LineEntry) (ind : Nat)
    (hres : find_line_common (some items) lineno = (some ind, false)) :
    ∃ e, items.get? ind = some e ∧ lineno < e.line
      ∧ ∀ e' ∈ items, lineno < e'.line → e.line ≤ e'.line := by
  unfold find_line_common at hres
  rw [if_neg hl0] at hres
  dsimp only at hres
  cases hf : items.findIdx? (fun it => it.line = lineno) with
  | some i =>
    rw [hf] at hres
    exact absurd (congrArg Prod.snd hres) (by simp)
  | none =>
    rw [hf] at hres
    dsimp only at hres
    have h1 : (items.enum.foldl (flc_step lineno) (none, 0)).1 = some ind := by
      have := congrArg Prod.fst hres
      simpa using this
    obtain ⟨hInv, hBound, _⟩ := flc_fold_spec lineno items items.enum (none, 0)
      (fun p hp => by
        rw [List.get?_eq_getElem?]
        exact (List.mem_enum_iff_getElem?.mp hp))
      (Or.inl ⟨rfl, rfl⟩)
    rcases hInv with ⟨hn, _⟩ | ⟨i, e, hi, hget, hline, habove⟩
    · rw [h1] at hn
      exact Option.noConfusion hn
    · rw [h1] at hi
      injection hi with hii
      refine ⟨e, hii ▸ hget, ?_, ?_⟩
      · rw [hline]
        exact habove
      · intro e' he' habove'
        obtain ⟨j, hj⟩ := List.mem_iff_getElem?.mp he'
        have hmem : (j, e') ∈ items.enum := List.mem_enum_iff_getElem?.mpr hj
        rw [hline]
        exact (hBound (j, e') hmem habove').2

/-- With no exact entry but some superseding entry, find_line_common
returns the index of the smallest superseding line. -/
theorem flc_above (lineno : Nat) (hl0 : lineno ≠ 0) (items : List LineEntry)
    (hno : ∀ e ∈ items, e.line ≠ lineno)
    (habove : ∃ e ∈ items, lineno < e.line) :
    ∃ ind e, find_line_common (some items) lineno = (some ind, false)
      ∧ items.get? ind = some e ∧ lineno < e.line
      ∧ ∀ e' ∈ items, lineno < e'.line → e.line ≤ e'.line := by
  have hf : items.findIdx? (fun it => it.line = lineno) = none := by
    rw [List.findIdx?_eq_none_iff]
    intro e he
    exact decide_eq_false (hno e he)
  obtain ⟨hInv, hBound, _⟩ := flc_fold_spec lineno items items.enum (none, 0)
    (fun p hp => by
      rw [List.get?_eq_getElem?]
      exact (List.mem_enum_iff_getElem?.mp hp))
    (Or.inl ⟨rfl, rfl⟩)
  have hres : find_line_common (some items) lineno
      = ((items.enum.foldl (flc_step lineno) (none, 0)).1, false) := by
    unfold find_line_common
    rw [if_neg hl0]
    dsimp only
    rw [hf]
  obtain ⟨w, hw, hwabove⟩ := habove
  obtain ⟨jw, hjw⟩ := List.mem_iff_getElem?.mp hw
  have hwmem : (jw, w) ∈ items.enum := List.mem_enum_iff_getElem?.mpr hjw
  have hne0 := (hBound (jw, w) hwmem hwabove).1
  rcases hInv with ⟨_, h0⟩ | ⟨i, e, hi, hget, hline, habv⟩
  · exact absurd h0 hne0
  · refine ⟨i, e, by rw [hres, hi], hget, ?_, ?_⟩
    · rw [hline]
      exact habv
    · intro e' he' habove'
      obtain ⟨j, hj⟩ := List.mem_iff_getElem?.mp he'
      have hmem : (j, e') ∈ items.enum := List.mem_enum_iff_getElem?.mpr hj
      rw [hline]
      exact (hBound (j, e') hmem habove').2

/-- The cross-table scan returns at the first same-filename table with
an exact hit, regardless of the candidate state carried so far. -/
theorem fls_scan_first_exact (fname : String) (line : Nat) :
    ∀ (L1 : List (Nat × Symtab)) (k : Nat) (s : Symtab)
      (L2 : List (Nat × Symtab)) (best bS : Nat) (bI : Option Nat) (ex : Bool)
      (i : Nat),
    (∀ p ∈ L1, p.2.filename = fname →
      (find_line_common p.2.linetable line).2 = false) →
    s.filename = fname →
    find_line_common s.linetable line = (some i, true) →
    fls_scan fname line (L1 ++ (k, s) :: L2) best bS bI ex = (k, some i, true)
  | [], k, s, L2, best, bS, bI, ex, i, _, hs, hi => by
    rw [List.nil_append, fls_scan]
    dsimp only
    rw [if_pos hs, hi]
    rfl
  | q :: L1, k, s, L2, best, bS, bI, ex, i, h1, hs, hi => by
    rw [List.cons_append, fls_scan]
    by_cases hq : q.2.filename = fname
    · rw [if_pos hq]
      have hqex : (find_line_common q.2.linetable line).2 = false :=
        h1 q (List.mem_cons_self q L1) hq
      dsimp only
      cases hr1 : (find_line_common q.2.linetable line).1 with
      | some ind =>
        dsimp only
        rw [hqex]
        simp only [Bool.false_eq_true, if_false]
        by_cases hbc : best = 0
          ∨ (((q.2.linetable.getD []).get? ind).map LineEntry.line).getD 0 < best
        · rw [if_pos hbc]
          exact fls_scan_first_exact fname line L1 k s L2 _ q.1 (some ind) false i
            (fun p hp => h1 p (List.mem_cons_of_mem q hp)) hs hi
        · rw [if_neg hbc]
          exact fls_scan_first_exact fname line L1 k s L2 best bS bI false i
            (fun p hp => h1 p (List.mem_cons_of_mem q hp)) hs hi
      | none =>
        dsimp only
        rw [hqex]
        exact fls_scan_first_exact fname line L1 k s L2 best bS bI false i
          (fun p hp => h1 p (List.mem_cons_of_mem q hp)) hs hi
    · rw [if_neg hq]
      exact fls_scan_first_exact fname line L1 k s L2 best bS bI ex i
        (fun p hp => h1 p (List.mem_cons_of_mem q hp)) hs hi

/-- Soundness and minimality of the cross-table scan when no
same-filename table has an exact hit: the exact flag stays clear, the
returned candidate is real and no worse than the carried one, and its
line bounds every candidate's superseding line from below. -/
theorem fls_scan_min (fname : String) (line : Nat) (hl0 : line ≠ 0)
    (tabs : List Symtab) :
    ∀ (L : List (Nat × Symtab)) (best bS : Nat) (bI : Option Nat),
    (∀ p ∈ L, p.2.filename = fname →
      (find_line_common p.2.linetable line).2 = false) →
    (∀ p ∈ L, tabs[p.1]? = some p.2) →
    (best ≠ 0 → ∃ s, tabs[bS]? = some s ∧ s.filename = fname ∧
      ∃ bi e, bI = some bi ∧ (s.linetable.getD []).get? bi = some e
        ∧ e.line = best ∧ line < best) →
    ∃ bestF,
      (fls_scan fname line L best bS bI false).2.2 = false
      ∧ (bestF ≠ 0 →
          ∃ s, tabs[(fls_scan fname line L best bS bI false).1]? = some s
          ∧ s.filename = fname
          ∧ ∃ bi e, (fls_scan fname line L best bS bI false).2.1 = some bi
            ∧ (s.linetable.getD []).get? bi = some e ∧ e.line = bestF
            ∧ line < bestF)
      ∧ (best ≠ 0 → bestF ≠ 0 ∧ bestF ≤ best)
      ∧ (∀ p ∈ L, p.2.filename = fname →
          ∀ ind, (find_line_common p.2.linetable line).1 = some ind →
            bestF ≠ 0 ∧ ∀ e, (p.2.linetable.getD []).get? ind = some e →
              bestF ≤ e.line)
  | [], best, bS, bI, _, _, hGood =>
    ⟨best, rfl, fun h => hGood h, fun h => ⟨h, le_refl _⟩, by simp⟩
  | q :: L, best, bS, bI, h1, hT, hGood => by
    rw [fls_scan]
    by_cases hq : q.2.filename = fname
    · rw [if_pos hq]
      have hqex : (find_line_common q.2.linetable line).2 = false :=
        h1 q (List.mem_cons_self q L) hq
      dsimp only
      cases hr1 : (find_line_common q.2.linetable line).1 with
      | none =>
        dsimp only
        rw [hqex]
        obtain ⟨bestF, ihx, ihG, ihM, ihC⟩ := fls_scan_min fname line hl0 tabs L
          best bS bI (fun p hp => h1 p (List.mem_cons_of_mem q hp))
          (fun p hp => hT p (List.mem_cons_of_mem q hp)) hGood
        refine ⟨bestF, ihx, ihG, ihM, ?_⟩
        intro p hp hpf ind hind
        rcases List.mem_cons.mp hp with heq | hp'
        · rw [heq] at hind
          rw [hr1] at hind
          exact Option.noConfusion hind
        · exact ihC p hp' hpf ind hind
      | some ind =>
        dsimp only
        rw [hqex]
        simp only [Bool.false_eq_true, if_false]
        have hfull : find_line_common q.2.linetable line = (some ind, false) := by
          rw [Prod.ext_iff]
          exact ⟨hr1, hqex⟩
        cases hlt : q.2.linetable with
        | none =>
          rw [hlt] at hfull
          have hnone : find_line_common none line = (none, false) := by
            unfold find_line_common
            rw [if_neg hl0]
          rw [hnone] at hfull
          exact absurd (congrArg Prod.fst hfull) (by simp)
        | some items =>
          rw [hlt] at hfull
          obtain ⟨e, hget, hlte, hmin⟩ := flc_some_false line hl0 items ind hfull
          have hlne : e.line ≠ 0 := by omega
          simp only [Option.getD_some, hget, Option.map_some']
          by_cases hbc : best = 0 ∨ e.line < best
          · rw [if_pos hbc]
            have hGood' : e.line ≠ 0 → ∃ s, tabs[q.1]? = some s
                ∧ s.filename = fname ∧ ∃ bi e', some ind = some bi
                  ∧ (s.linetable.getD []).get? bi = some e' ∧ e'.line = e.line
                  ∧ line < e.line :=
              fun _ => ⟨q.2, hT q (List.mem_cons_self q L), hq, ind, e, rfl,
                by rw [hlt]; exact hget, rfl, hlte⟩
            obtain ⟨bestF, ihx, ihG, ihM, ihC⟩ := fls_scan_min fname line hl0 tabs L
              e.line q.1 (some ind)
              (fun p hp => h1 p (List.mem_cons_of_mem q hp))
              (fun p hp => hT p (List.mem_cons_of_mem q hp)) hGood'
            have hMe := ihM hlne
            refine ⟨bestF, ihx, ihG, ?_, ?_⟩
            · intro hb0
              rcases hbc with hbc | hbc
              · exact absurd hbc hb0
              · exact ⟨hMe.1, le_trans hMe.2 (le_of_lt hbc)⟩
            · intro p hp hpf ind' hind'
              rcases List.mem_cons.mp hp with heq | hp'
              · rw [heq] at hind'
                rw [hr1] at hind'
                injection hind' with hii
                subst hii
                refine ⟨hMe.1, ?_⟩
                intro e'' hget''
                rw [heq] at hget''
                rw [hlt] at hget''
                simp only [Option.getD_some] at hget''
                rw [hget] at hget''
                injection hget'' with hee
                rw [← hee]
                exact hMe.2
              · exact ihC p hp' hpf ind' hind'
          · rw [if_neg hbc]
            push_neg at hbc
            obtain ⟨bestF, ihx, ihG, ihM, ihC⟩ := fls_scan_min fname line hl0 tabs L
              best bS bI (fun p hp => h1 p (List.mem_cons_of_mem q hp))
              (fun p hp => hT p (List.mem_cons_of_mem q hp)) hGood
            have hMb := ihM hbc.1
            refine ⟨bestF, ihx, ihG, ihM, ?_⟩
            intro p hp hpf ind' hind'
            rcases List.mem_cons.mp hp with heq | hp'
            · rw [heq] at hind'
              rw [hr1] at hind'
              injection hind' with hii
              subst hii
              refine ⟨hMb.1, ?_⟩
              intro e'' hget''
              rw [heq] at hget''
              rw [hlt] at hget''
              simp only [Option.getD_some] at hget''
              rw [hget] at hget''
              injection hget'' with hee
              rw [← hee]
              exact le_trans hMb.2 hbc.2
            · exact ihC p hp' hpf ind' hind'
    · rw [if_neg hq]
      obtain ⟨bestF, ihx, ihG, ihM, ihC⟩ := fls_scan_min fname line hl0 tabs L
        best bS bI (fun p hp => h1 p (List.mem_cons_of_mem q hp))
        (fun p hp => hT p (List.mem_cons_of_mem q hp)) hGood
      refine ⟨bestF, ihx, ihG, ihM, ?_⟩
      intro p hp hpf ind hind
      rcases List.mem_cons.mp hp with heq | hp'
      · rw [heq] at hpf
        exact absurd hpf hq
      · exact ihC p hp' hpf ind hind

/-- Expansion only ever appends Full Tables: the pre-existing table list
is a prefix of the post-expansion list. -/
theorem psymtab_to_symtab_symtabs (sess : Session) (i : Nat) :
    ∃ t, (psymtab_to_symtab sess i).1.symtabs = sess.symtabs ++ t := by
  unfold psymtab_to_symtab
  cases hp : sess.psymtabs[i]? with
  | none => exact ⟨[], by simp⟩
  | some ps =>
    dsimp only
    cases hk : ps.symtabIdx with
    | some k => exact ⟨[], by simp⟩
    | none =>
      dsimp only
      by_cases hr : ps.readin
      · rw [if_pos hr]
        exact ⟨[], by simp⟩
      · rw [if_neg hr]
        exact ⟨ps.expansion, rfl⟩

/-- The expansion pass of find_line_symtab only appends Full Tables. -/
theorem expandMatching_go_symtabs (fname : String) :
    ∀ (l : List Nat) (sess : Session),
    ∃ t, (expandMatching.go fname sess l).symtabs = sess.symtabs ++ t
  | [], sess => ⟨[], by simp [expandMatching.go]⟩
  | i :: rest, sess => by
    rw [expandMatching.go]
    cases hp : sess.psymtabs[i]? with
    | none => exact expandMatching_go_symtabs fname rest sess
    | some ps =>
      dsimp only
      by_cases hf : ps.filename = fname
      · rw [if_pos hf]
        obtain ⟨t1, ht1⟩ := psymtab_to_symtab_symtabs sess i
        obtain ⟨t2, ht2⟩ :=
          expandMatching_go_symtabs fname rest (psymtab_to_symtab sess i).1
        exact ⟨t1 ++ t2, by rw [ht2, ht1, List.append_assoc]⟩
      · rw [if_neg hf]
        exact expandMatching_go_symtabs fname rest sess

/-- expandMatching only appends Full Tables. -/
theorem expandMatching_symtabs (sess : Session) (fname : String) :
    ∃ t, (expandMatching sess fname).symtabs = sess.symtabs ++ t := by
  unfold expandMatching
  exact expandMatching_go_symtabs fname (List.range sess.psymtabs.length) sess

/-- find_line_symtab stops at an exact hit in the queried table without
touching the Compact Indexes. -/
theorem find_line_symtab_exact (sess : Session) (stIdx line : Nat)
    (st0 : Symtab) (i : Nat) (hst : sess.symtabs[stIdx]? = some st0)
    (hi : find_line_common st0.linetable line = (some i, true)) :
    find_line_symtab sess stIdx line = (sess, some (stIdx, i, true)) := by
  unfold find_line_symtab
  rw [hst]
  dsimp only
  rw [hi]
  rfl

/-- Without an exact hit in the queried table, find_line_symtab's answer
is the cross-table scan's, over the post-expansion table list. -/
theorem find_line_symtab_scan_some (sess : Session) (stIdx line : Nat)
    (st0 : Symtab) (bI : Option Nat) (best0 : Nat)
    (hst : sess.symtabs[stIdx]? = some st0)
    (hflc : find_line_common st0.linetable line = (bI, false))
    (hbest0 : best0 = flsBest0 st0.linetable bI)
    (bs bi : Nat) (ex : Bool)
    (hscan : fls_scan st0.filename line
        (expandMatching sess st0.filename).symtabs.enum best0 stIdx bI false
      = (bs, some bi, ex)) :
    find_line_symtab sess stIdx line
      = (expandMatching sess st0.filename, some (bs, bi, ex)) := by
  subst hbest0
  unfold find_line_symtab
  rw [hst]
  dsimp only
  rw [hflc]
  dsimp only
  simp only [Bool.and_false, Bool.false_eq_true, if_false]
  rw [hscan]

/-- find_line_pc reads the address out of the entry find_line_symtab
settled on. -/
theorem find_line_pc_of_symtab (sess sess2 : Session) (stIdx line : Nat)
    (si ind : Nat) (ex : Bool)
    (h : find_line_symtab sess stIdx line = (sess2, some (si, ind, ex))) :
    find_line_pc sess stIdx line
      = (sess2, (((sess2.symtabs[si]?.bind (·.linetable)).getD []).get? ind).map
          LineEntry.pc) := by
  unfold find_line_pc
  rw [h]

/-- C3: line → address resolution.  (A) An exact entry in the queried
table wins: the exact flag is set and that entry's stored address comes
back, with no Compact Index touched.  (B) With no exact entry in the
queried table, the first same-filename table of the post-expansion scan
holding an exact entry wins — preferred over every nearest-above
candidate.  (C) With no exact entry in any same-filename table but some
superseding entry, the result is non-exact and holds the smallest line
number above the query across every same-filename table, at that
entry's stored address. -/
theorem C3_line_to_address (sess : Session) (stIdx line : Nat) (st0 : Symtab)
    (hst : sess.symtabs[stIdx]? = some st0) (hl0 : line ≠ 0) :
    ((∃ e ∈ st0.linetable.getD [], e.line = line) →
      ∃ i e, (st0.linetable.getD []).get? i = some e ∧ e.line = line
        ∧ find_line_symtab sess stIdx line = (sess, some (stIdx, i, true))
        ∧ find_line_pc sess stIdx line = (sess, some e.pc))
    ∧
    ((∀ e ∈ st0.linetable.getD [], e.line ≠ line) →
      ∀ L1 k s L2,
      (expandMatching sess st0.filename).symtabs.enum = L1 ++ (k, s) :: L2 →
      (∀ p ∈ L1, p.2.filename = st0.filename →
        ∀ e ∈ p.2.linetable.getD [], e.line ≠ line) →
      s.filename = st0.filename →
      (∃ e ∈ s.linetable.getD [], e.line = line) →
      ∃ i e, (s.linetable.getD []).get? i = some e ∧ e.line = line
        ∧ find_line_symtab sess stIdx line
            = (expandMatching sess st0.filename, some (k, i, true))
        ∧ find_line_pc sess stIdx line
            = (expandMatching sess st0.filename, some e.pc))
    ∧
    ((∀ p ∈ (expandMatching sess st0.filename).symtabs.enum,
        p.2.filename = st0.filename →
        ∀ e ∈ p.2.linetable.getD [], e.line ≠ line) →
      (∃ p ∈ (expandMatching sess st0.filename).symtabs.enum,
        p.2.filename = st0.filename
        ∧ ∃ e ∈ p.2.linetable.getD [], line < e.line) →
      ∃ bs bi s e,
        find_line_symtab sess stIdx line
          = (expandMatching sess st0.filename, some (bs, bi, false))
        ∧ (expandMatching sess st0.filename).symtabs[bs]? = some s
        ∧ s.filename = st0.filename
        ∧ (s.linetable.getD []).get? bi = some e ∧ line < e.line
        ∧ (∀ p ∈ (expandMatching sess st0.filename).symtabs.enum,
            p.2.filename = st0.filename →
            ∀ e' ∈ p.2.linetable.getD [], line < e'.line → e.line ≤ e'.line)
        ∧ find_line_pc sess stIdx line
            = (expandMatching sess st0.filename, some e.pc)) := by
  refine ⟨?_, ?_, ?_⟩
  · -- (A) exact in the queried table
    intro hex
    cases hlt0 : st0.linetable with
    | none =>
      rw [hlt0] at hex
      simp at hex
    | some items0 =>
      rw [hlt0] at hex
      simp only [Option.getD_some] at hex
      obtain ⟨i, e, hres, hget, hel⟩ := flc_exact line hl0 items0 hex
      have hsym := find_line_symtab_exact sess stIdx line st0 i hst
        (by rw [hlt0]; exact hres)
      have hpc := find_line_pc_of_symtab sess sess stIdx line stIdx i true hsym
      refine ⟨i, e, hget, hel, hsym, ?_⟩
      rw [hpc, hst]
      have hget' : items0[i]? = some e := by
        rw [← List.get?_eq_getElem?]
        exact hget
      simp [hlt0, hget']
  · -- (B) first same-filename exact hit elsewhere
    intro hnoex L1 k s L2 hsplit hL1 hsf hex
    have hnex0 : (find_line_common st0.linetable line).2 = false :=
      flc_no_exact line st0.linetable hnoex
    have hflc : find_line_common st0.linetable line
        = ((find_line_common st0.linetable line).1, false) :=
      Prod.ext_iff.mpr ⟨rfl, hnex0⟩
    cases hlts : s.linetable with
    | none =>
      rw [hlts] at hex
      simp at hex
    | some itemsS =>
      rw [hlts] at hex
      simp only [Option.getD_some] at hex
      obtain ⟨i, e, hresS, hgetS, helS⟩ := flc_exact line hl0 itemsS hex
      have hL1' : ∀ p ∈ L1, p.2.filename = st0.filename →
          (find_line_common p.2.linetable line).2 = false :=
        fun p hp hpf => flc_no_exact line p.2.linetable (hL1 p hp hpf)
      have hscan := fls_scan_first_exact st0.filename line L1 k s L2
        (flsBest0 st0.linetable (find_line_common st0.linetable line).1)
        stIdx (find_line_common st0.linetable line).1 false i hL1' hsf
        (by rw [hlts]; exact hresS)
      rw [← hsplit] at hscan
      have hsym := find_line_symtab_scan_some sess stIdx line st0
        (find_line_common st0.linetable line).1
        (flsBest0 st0.linetable (find_line_common st0.linetable line).1)
        hst hflc rfl k i true hscan
      have hpc := find_line_pc_of_symtab sess (expandMatching sess st0.filename)
        stIdx line k i true hsym
      have hmem : (k, s) ∈ (expandMatching sess st0.filename).symtabs.enum := by
        rw [hsplit]
        exact List.mem_append.mpr (Or.inr (List.mem_cons_self _ _))
      have hks : (expandMatching sess st0.filename).symtabs[k]? = some s :=
        List.mem_enum_iff_getElem?.mp hmem
      refine ⟨i, e, hgetS, helS, hsym, ?_⟩
      rw [hpc, hks]
      have hgetS' : itemsS[i]? = some e := by
        rw [← List.get?_eq_getElem?]
        exact hgetS
      simp [hlts, hgetS']
  · -- (C) smallest superseding line across same-filename tables
    intro hall hcand
    obtain ⟨t, ht⟩ := expandMatching_symtabs sess st0.filename
    have hst' : (expandMatching sess st0.filename).symtabs[stIdx]? = some st0 := by
      rw [ht]
      rcases List.getElem?_eq_some_iff.mp hst with ⟨hlen, _⟩
      rw [List.getElem?_append_left hlen]
      exact hst
    have hmem0 : (stIdx, st0) ∈ (expandMatching sess st0.filename).symtabs.enum :=
      List.mem_enum_iff_getElem?.mpr hst'
    have hnoex0 := hall (stIdx, st0) hmem0 rfl
    have hnex0 : (find_line_common st0.linetable line).2 = false :=
      flc_no_exact line st0.linetable hnoex0
    have hnoexL : ∀ p ∈ (expandMatching sess st0.filename).symtabs.enum,
        p.2.filename = st0.filename →
        (find_line_common p.2.linetable line).2 = false :=
      fun p hp hpf => flc_no_exact line p.2.linetable (hall p hp hpf)
    have hT : ∀ p ∈ (expandMatching sess st0.filename).symtabs.enum,
        (expandMatching sess st0.filename).symtabs[p.1]? = some p.2 :=
      fun p hp => List.mem_enum_iff_getElem?.mp hp
    -- the carried candidate and its soundness
    have hkey : ∃ bIv bv,
        find_line_common st0.linetable line = (bIv, false)
        ∧ bv = flsBest0 st0.linetable bIv
        ∧ (bv ≠ 0 → ∃ s,
            (expandMatching sess st0.filename).symtabs[stIdx]? = some s
            ∧ s.filename = st0.filename ∧ ∃ bi e, bIv = some bi
              ∧ (s.linetable.getD []).get? bi = some e ∧ e.line = bv
              ∧ line < bv) := by
      cases hbIc : (find_line_common st0.linetable line).1 with
      | none =>
        refine ⟨none, 0, Prod.ext_iff.mpr ⟨hbIc, hnex0⟩, rfl, ?_⟩
        intro h
        exact absurd rfl h
      | some b0 =>
        have hres : find_line_common st0.linetable line = (some b0, false) :=
          Prod.ext_iff.mpr ⟨hbIc, hnex0⟩
        cases hlt0 : st0.linetable with
        | none =>
          have hnone : find_line_common none line = (none, false) := by
            unfold find_line_common
            rw [if_neg hl0]
          rw [hlt0, hnone] at hres
          exact absurd (congrArg Prod.fst hres) (by simp)
        | some items0 =>
          rw [hlt0] at hres
          obtain ⟨e0, hget0, hlte0, _⟩ := flc_some_false line hl0 items0 b0 hres
          refine ⟨some b0, e0.line, hres, ?_, ?_⟩
          · have hget0' : items0[b0]? = some e0 := by
              rw [← List.get?_eq_getElem?]
              exact hget0
            simp [flsBest0, hget0']
          · intro _
            exact ⟨st0, hst', rfl, b0, e0, rfl, by rw [hlt0]; exact hget0,
              rfl, hlte0⟩
    obtain ⟨bIv, bv, hres, hbv, hGood⟩ := hkey
    obtain ⟨bestF, ihx, ihG, ihM, ihC⟩ := fls_scan_min st0.filename line hl0
      (expandMatching sess st0.filename).symtabs
      (expandMatching sess st0.filename).symtabs.enum bv stIdx bIv
      hnoexL hT hGood
    -- some candidate forces a non-trivial final best
    obtain ⟨pC, hpCmem, hpCf, eC, heC, haboveC⟩ := hcand
    have hnoC : ∀ e ∈ pC.2.linetable.getD [], e.line ≠ line := hall pC hpCmem hpCf
    obtain ⟨itemsC, hltC⟩ : ∃ itemsC, pC.2.linetable = some itemsC := by
      cases hltC : pC.2.linetable with
      | none =>
        rw [hltC] at heC
        simp at heC
      | some itemsC => exact ⟨itemsC, rfl⟩
    rw [hltC] at heC hnoC
    simp only [Option.getD_some] at heC hnoC
    obtain ⟨indC, eC', hresC, _, _, _⟩ :=
      flc_above line hl0 itemsC hnoC ⟨eC, heC, haboveC⟩
    have hbF0 : bestF ≠ 0 :=
      (ihC pC hpCmem hpCf indC (by rw [hltC, hresC])).1
    obtain ⟨sB, hsB, hsBf, bi, e, hbi, hgetB, helB, hltB⟩ := ihG hbF0
    have hscan : fls_scan st0.filename line
        (expandMatching sess st0.filename).symtabs.enum bv stIdx bIv false
        = ((fls_scan st0.filename line
            (expandMatching sess st0.filename).symtabs.enum bv stIdx bIv
            false).1, some bi, false) :=
      Prod.ext_iff.mpr ⟨rfl, Prod.ext_iff.mpr ⟨hbi, ihx⟩⟩
    have hsym := find_line_symtab_scan_some sess stIdx line st0 bIv bv hst hres
      hbv _ bi false hscan
    have hpc := find_line_pc_of_symtab sess (expandMatching sess st0.filename)
      stIdx line _ bi false hsym
    refine ⟨_, bi, sB, e, hsym, hsB, hsBf, hgetB, by rw [helB]; exact hltB,
      ?_, ?_⟩
    · -- minimality across same-filename tables
      intro p hp hpf e' he' habove'
      have hnoP : ∀ e ∈ p.2.linetable.getD [], e.line ≠ line := hall p hp hpf
      obtain ⟨itemsP, hltP⟩ : ∃ itemsP, p.2.linetable = some itemsP := by
        cases hltP : p.2.linetable with
        | none =>
          rw [hltP] at he'
          simp at he'
        | some itemsP => exact ⟨itemsP, rfl⟩
      rw [hltP] at he' hnoP
      simp only [Option.getD_some] at he' hnoP
      obtain ⟨indP, eP, hresP, hgetP, _, hminP⟩ :=
        flc_above line hl0 itemsP hnoP ⟨e', he', habove'⟩
      have hb := (ihC p hp hpf indP (by rw [hltP, hresP])).2 eP
        (by rw [hltP]; exact hgetP)
      have := hminP e' he' habove'
      rw [helB]
      omega
    · rw [hpc, hsB]
      have hgetB' : (sB.linetable.getD [])[bi]? = some e := by
        rw [← List.get?_eq_getElem?]
        exact hgetB
      simp [hgetB']

/-- C3 witness: a unit with line 7 stored at address 40; the query
(unit, line 7) hits exactly and find_line_pc returns address 40. -/
theorem C3_line_to_address_witness :
    ∃ i e, ([LineEntry.mk 7 40] : List LineEntry).get? i = some e
      ∧ e.line = 7
      ∧ find_line_symtab
          (Session.mk false none []
            [Symtab.mk "f.c" 0
              (Blockvector.mk (Blk.mk 0 100 [] false none)
                (Blk.mk 0 100 [] false (some (Blk.mk 0 100 [] false none))))
              (some [LineEntry.mk 7 40]) true]
            [] 0) 0 7
        = (Session.mk false none []
            [Symtab.mk "f.c" 0
              (Blockvector.mk (Blk.mk 0 100 [] false none)
                (Blk.mk 0 100 [] false (some (Blk.mk 0 100 [] false none))))
              (some [LineEntry.mk 7 40]) true]
            [] 0, some (0, i, true))
      ∧ find_line_pc
          (Session.mk false none []
            [Symtab.mk "f.c" 0
              (Blockvector.mk (Blk.mk 0 100 [] false none)
                (Blk.mk 0 100 [] false (some (Blk.mk 0 100 [] false none))))
              (some [LineEntry.mk 7 40]) true]
            [] 0) 0 7
        = (Session.mk false none []
            [Symtab.mk "f.c" 0
              (Blockvector.mk (Blk.mk 0 100 [] false none)
                (Blk.mk 0 100 [] false (some (Blk.mk 0 100 [] false none))))
              (some [LineEntry.mk 7 40]) true]
            [] 0, some e.pc) :=
  (C3_line_to_address
    (Session.mk false none []
      [Symtab.mk "f.c" 0
        (Blockvector.mk (Blk.mk 0 100 [] false none)
          (Blk.mk 0 100 [] false (some (Blk.mk 0 100 [] false none))))
        (some [LineEntry.mk 7 40]) true]
      [] 0) 0 7
    (Symtab.mk "f.c" 0
      (Blockvector.mk (Blk.mk 0 100 [] false none)
        (Blk.mk 0 100 [] false (some (Blk.mk 0 100 [] false none))))
      (some [LineEntry.mk 7 40]) true)
    rfl (by decide)).1
    ⟨LineEntry.mk 7 40, List.mem_singleton.mpr rfl, rfl⟩

end Symtab
